import Mathlib

/-!
A verification development for the quantum-ledger-qrl prototype node.

The Python sources (config.py, pqc_primitives.py, transaction.py, db_manager.py,
ledger.py, wallet_manager.py) are shallowly embedded below: pure functions become
Lean functions, the sqlite-backed stores become association lists of records, and
the SHA3-512 canonical hasher is an explicit function parameter (`hashS` for raw
strings, `hashTx` for canonical transaction dictionaries, `hashHeader` for block
header dictionaries), since the claims under study never depend on concrete
digest values.  Monetary amounts and timestamps (Python floats) are embedded as
rationals.
-/

set_option linter.unusedVariables false

namespace QRL

/-! ## Constants (config.py) -/

def INITIAL_DIFFICULTY : Nat := 4

def MINER_REWARD : ℚ := 10

def BLOCK_TIME_TARGET : ℚ := 10

def DIFFICULTY_ADJUSTMENT_INTERVAL : Nat := 5

def TRANSACTION_VERSION : Nat := 1

/-- The 128-character all-zero hex sentinel, Python `"0" * 128`. -/
def zeros128 : String := String.mk (List.replicate 128 '0')

/-! ## PQC primitives (pqc_primitives.py) -/

/-- Hex length of a mock CRYSTALS-Dilithium-3 signature:
`int(self.signature_size * 2 * 1024)` with `signature_size_kb = 3.3`,
i.e. `int(3.3 * 2 * 1024) = int(6758.4) = 6758` in Python float arithmetic. -/
def dilithiumSigHexLen : Nat := 6758

/-- `PQCAlgorithm.verify` of the Dilithium-3 mock: it returns `False` when the
signature's length differs from the scheme's expected hex length and `True`
otherwise; the public key and the message digest are never inspected. -/
def pqcVerify (publicKey dataHash sig : String) : Bool :=
  if sig.length ≠ dilithiumSigHexLen then false else true

/-! ## Transactions (transaction.py) -/

structure TxInput where
  txid : String
  outputIndex : Int
  signature : Option String := none
  pubKey : Option String := none
deriving DecidableEq, Repr, Inhabited

structure TxOutput where
  amount : ℚ
  address : String
deriving DecidableEq, Repr, Inhabited

/-- A transaction with its stored identifier.  In the source `_txid` is a field
computed once by `_calculate_txid` at construction time and read back by every
consumer; `mkTransaction` below performs that computation. -/
structure Transaction where
  version : Nat
  timestamp : ℚ
  inputs : List TxInput
  outputs : List TxOutput
  txid : String
deriving DecidableEq, Repr, Inhabited

/-- The canonical dictionary form of a transaction input (`TxInput.to_dict`),
with keys in lexicographic order: output_index, pub_key, signature, txid. -/
structure TxInputDict where
  outputIndex : Int
  pubKey : Option String
  signature : Option String
  txid : String
deriving DecidableEq, Repr

/-- The canonical dictionary form of a transaction output (`TxOutput.to_dict`),
keys in lexicographic order: address, amount. -/
structure TxOutputDict where
  address : String
  amount : ℚ
deriving DecidableEq, Repr

/-- The canonical dictionary form of a transaction (`Transaction.to_dict`),
keys in lexicographic order: inputs, outputs, timestamp, version. -/
structure TxDict where
  inputs : List TxInputDict
  outputs : List TxOutputDict
  timestamp : ℚ
  version : Nat
deriving DecidableEq, Repr

/-- `TxInput.to_dict`, combined with the signature-nulling loop of
`Transaction.to_dict(include_signature=False)`: when `withSig` is false the
signature entry is replaced by null. -/
def TxInput.toDict (withSig : Bool) (i : TxInput) : TxInputDict :=
  { outputIndex := i.outputIndex
    pubKey := i.pubKey
    signature := if withSig then i.signature else none
    txid := i.txid }

def TxOutput.toDict (o : TxOutput) : TxOutputDict :=
  { address := o.address, amount := o.amount }

/-- The body of `Transaction.to_dict`, on the raw components. -/
def txDictOf (withSig : Bool) (inputs : List TxInput) (outputs : List TxOutput)
    (timestamp : ℚ) (version : Nat) : TxDict :=
  { inputs := inputs.map (TxInput.toDict withSig)
    outputs := outputs.map TxOutput.toDict
    timestamp := timestamp
    version := version }

def Transaction.toDict (withSig : Bool) (t : Transaction) : TxDict :=
  txDictOf withSig t.inputs t.outputs t.timestamp t.version

/-- `Transaction._calculate_txid`: the canonical hash of the signature-free
dictionary form. -/
def calcTxid (hashTx : TxDict → String) (inputs : List TxInput)
    (outputs : List TxOutput) (timestamp : ℚ) (version : Nat) : String :=
  hashTx (txDictOf false inputs outputs timestamp version)

/-- `Transaction.__init__`: stores the components and computes `_txid`. -/
def mkTransaction (hashTx : TxDict → String) (inputs : List TxInput)
    (outputs : List TxOutput) (version : Nat) (timestamp : ℚ) : Transaction :=
  { version := version
    timestamp := timestamp
    inputs := inputs
    outputs := outputs
    txid := calcTxid hashTx inputs outputs timestamp version }

/-- A transaction input with its signature cleared. -/
def stripSig (i : TxInput) : TxInput := { i with signature := none }

/-- `Transaction.sign_input`: sets `inputs[idx].signature` to the mock PQC
signature over the stored txid, leaving the stored txid untouched.  (The source
raises IndexError for an out-of-range index; `List.set` is a no-op there.) -/
def Transaction.signInput (pqcSignF : String → String → String)
    (privateKey : String) (idx : Nat) (t : Transaction) : Transaction :=
  { t with
    inputs := t.inputs.set idx
      { t.inputs.getD idx default with
        signature := some (pqcSignF privateKey t.txid) } }

/-! ## Merkle root (ledger.py, calculate_merkle_root) -/

/-- One level of the Merkle construction: hash the concatenation of adjacent
hex strings. -/
def pairHash (hashS : String → String) : List String → List String
  | a :: b :: rest => hashS (a ++ b) :: pairHash hashS rest
  | _ => []

theorem pairHash_length (hashS : String → String) :
    ∀ hs : List String, (pairHash hashS hs).length = hs.length / 2
  | [] => rfl
  | [_] => by simp [pairHash]
  | _ :: _ :: rest => by
      simp only [pairHash, List.length_cons, pairHash_length hashS rest]
      omega

/-- The while-loop of `calculate_merkle_root`: while more than one hash
remains, duplicate the last when the count is odd, then pair-hash. -/
def merkleAux (hashS : String → String) (hs : List String) : String :=
  if h : hs.length ≤ 1 then hs.headD ""
  else
    let padded := if hs.length % 2 = 1 then hs ++ [hs.getLastD ""] else hs
    merkleAux hashS (pairHash hashS padded)
termination_by hs.length
decreasing_by
  split <;>
    simp only [pairHash_length, List.length_append, List.length_cons,
      List.length_nil] <;>
    omega

/-- `calculate_merkle_root`: the empty transaction list yields the zero
sentinel; otherwise run the pairing loop on the list of txids. -/
def calculateMerkleRoot (hashS : String → String)
    (transactions : List Transaction) : String :=
  if transactions.isEmpty then zeros128
  else merkleAux hashS (transactions.map (fun t => t.txid))

/-! ## The UTXO store (db_manager.py, UTXODBManager) -/

/-- A row of the `utxos` table: primary key `(txid, output_index)`, plus the
spent marker columns. -/
structure UtxoRec where
  txid : String
  outputIndex : Int
  address : String
  amount : ℚ
  spentTxid : Option String := none
  spentIndex : Option Nat := none
deriving DecidableEq, Repr, Inhabited

/-- `UTXO.is_spent`. -/
def UtxoRec.isSpent (u : UtxoRec) : Bool := u.spentTxid.isSome

/-- The `utxos` table, as a list of rows.  Row order is irrelevant to every
claim; all operations below keep the primary key unique when starting from a
unique-key store. -/
abbrev UtxoStore := List UtxoRec

/-- `UTXODBManager.get_utxo_by_id`: fetch the row with the given primary key
(spent or unspent). -/
def getUtxoById (txid : String) (outputIndex : Int) (udb : UtxoStore) :
    Option UtxoRec :=
  udb.find? (fun r => r.txid == txid && r.outputIndex == outputIndex)

/-- One `INSERT OR IGNORE` of `UTXODBManager.add_utxos`: keep the store
unchanged on a primary-key conflict, otherwise append the row (only the four
unspent-info columns are inserted, so the row is stored unspent). -/
def addUtxo (r : UtxoRec) (udb : UtxoStore) : UtxoStore :=
  if (getUtxoById r.txid r.outputIndex udb).isSome then udb
  else udb ++ [{ r with spentTxid := none, spentIndex := none }]

/-- `UTXODBManager.add_utxos`. -/
def addUtxos (recs : List UtxoRec) (udb : UtxoStore) : UtxoStore :=
  recs.foldl (fun u r => addUtxo r u) udb

/-- `UTXODBManager.mark_spent`: the conditional single-row UPDATE, setting the
spent marker only where the row currently has `spent_txid IS NULL`.  The
source's boolean row-count result is ignored by every caller in ledger.py. -/
def markSpent (inputTxid : String) (inputIndex : Int) (spenderTxid : String)
    (spenderIndex : Nat) (udb : UtxoStore) : UtxoStore :=
  udb.map (fun r =>
    if r.txid = inputTxid ∧ r.outputIndex = inputIndex ∧ r.spentTxid = none
    then { r with spentTxid := some spenderTxid, spentIndex := some spenderIndex }
    else r)

/-- `UTXODBManager.get_unspent_outputs` filtered by address. -/
def getUnspentOutputs (address : String) (udb : UtxoStore) : List UtxoRec :=
  udb.filter (fun r => r.spentTxid.isNone && r.address == address)

/-- `WalletManager.get_balance`: the sum of the unspent amounts held by an
address. -/
def balanceOf (address : String) (udb : UtxoStore) : ℚ :=
  ((getUnspentOutputs address udb).map (fun r => r.amount)).sum

/-! ## Transaction validation (transaction.py, Transaction.is_valid) -/

/-- The input-checking loop of `Transaction.is_valid`: every input must
reference an existing, unspent UTXO whose address equals the input's public
key, and carry a signature accepted by `pqc_verify` over the stored txid;
the amounts of the referenced UTXOs are accumulated.  A missing signature is
treated as a rejection (the source would raise a TypeError inside
`pqc_verify` there; no claim depends on that path). -/
def validInputsSum (udb : UtxoStore) (dataToVerify : String) :
    List TxInput → ℚ → Option ℚ
  | [], acc => some acc
  | i :: rest, acc =>
    match getUtxoById i.txid i.outputIndex udb with
    | none => none
    | some u =>
      if u.isSpent then none
      else if i.pubKey ≠ some u.address then none
      else
        match i.signature with
        | none => none
        | some s =>
          if pqcVerify (i.pubKey.getD "") dataToVerify s = false then none
          else validInputsSum udb dataToVerify rest (acc + u.amount)

/-- `Transaction.is_valid`.  The ledger always calls it with
`is_coinbase=False`; the coinbase branch is kept for fidelity. -/
def txIsValid (udb : UtxoStore) (t : Transaction) (isCoinbase : Bool := false) :
    Bool :=
  if t.outputs.isEmpty then false
  else if isCoinbase then
    decide (t.inputs.length = 1 ∧ (t.inputs.headD default).txid = zeros128)
  else
    match validInputsSum udb t.txid t.inputs 0 with
    | none => false
    | some inputSum =>
      decide (¬ inputSum < (t.outputs.map (fun o => o.amount)).sum)

/-! ## Blocks (ledger.py, Block) -/

/-- The header dictionary hashed by `Block.calculate_hash`, keys in
lexicographic order: index, merkle_root, previous_hash, proof, timestamp. -/
structure HeaderDict where
  index : Nat
  timestamp : ℚ
  previousHash : String
  merkleRoot : String
  proof : Nat
deriving DecidableEq, Repr

structure Block where
  index : Nat
  timestamp : ℚ
  transactions : List Transaction
  previousHash : String
  proof : Nat
  merkleRoot : String
  hash : String
deriving DecidableEq, Repr, Inhabited

/-- `Block.__init__` as invoked with defaults: the Merkle root is computed
from the transactions and the hash from the header fields. -/
def mkBlock (hashS : String → String) (hashHeader : HeaderDict → String)
    (index : Nat) (transactions : List Transaction) (previousHash : String)
    (proof : Nat) (timestamp : ℚ) : Block :=
  let mr := calculateMerkleRoot hashS transactions
  { index := index
    timestamp := timestamp
    transactions := transactions
    previousHash := previousHash
    proof := proof
    merkleRoot := mr
    hash := hashHeader
      { index := index, timestamp := timestamp, previousHash := previousHash
        merkleRoot := mr, proof := proof } }

/-- A transaction is recognised as coinbase-like by the sentinel txid of its
first input (`tx.inputs[0].txid == "0" * 128`).  With no inputs at all the
source would raise; the chosen default is irrelevant because the guarded
spending loops iterate over an empty list in that case. -/
def coinbaseSentinel (t : Transaction) : Bool :=
  match t.inputs with
  | [] => true
  | i :: _ => i.txid == zeros128

/-! ## The ledger (ledger.py, QuantumLedger) -/

/-- The node state owned by `QuantumLedger`: the in-memory chain, the UTXO
store, the mempool, the current difficulty and the miner address. -/
structure LedgerState where
  chain : List Block
  udb : UtxoStore
  pending : List Transaction
  currentDifficulty : Nat
  minerAddress : String
deriving DecidableEq, Repr

/-- The unspent row produced by output number `p.1` of a transaction with
the given txid (`UTXO(tx.txid, i, output.address, output.amount)`). -/
def mkOutRec (txid : String) (p : Nat × TxOutput) : UtxoRec :=
  { txid := txid, outputIndex := (p.1 : Int), address := p.2.address
    amount := p.2.amount }

/-- The per-transaction body of `QuantumLedger._update_utxo_set`: for a
non-coinbase transaction mark every input spent (the spend is guarded by
`is_spend`, which is loop-invariant, so the guard is hoisted out of the
enumeration), then — also only when `is_spend` holds — insert the new output
rows.  When `is_spend` is false the source computes `new_utxos` and then drops
them, leaving the store untouched. -/
def incrTxStep (isSpend : Bool) (t : Transaction) (udb : UtxoStore) :
    UtxoStore :=
  let u1 :=
    if ¬ coinbaseSentinel t ∧ isSpend then
      t.inputs.enum.foldl
        (fun u p => markSpent p.2.txid p.2.outputIndex t.txid p.1 u) udb
    else udb
  if isSpend then addUtxos (t.outputs.enum.map (mkOutRec t.txid)) u1
  else u1

/-- `QuantumLedger._update_utxo_set`. -/
def updateUtxoSet (b : Block) (isSpend : Bool) (udb : UtxoStore) : UtxoStore :=
  b.transactions.foldl (fun u t => incrTxStep isSpend t u) udb

/-- The incrementally maintained store: start from an empty store and apply
`_update_utxo_set` (with its default `is_spend=True`) for each committed block
in order. -/
def applyChainIncrementally (chain : List Block) : UtxoStore :=
  chain.foldl (fun u b => updateUtxoSet b true u) []

/-- Python dict assignment `all_utxos[(txid, i)] = UTXO(...)` used by
`rebuild_utxo_set`: replace the existing entry for the key in place, or append
a fresh one. -/
def dictAssign (r : UtxoRec) : List UtxoRec → List UtxoRec
  | [] => [r]
  | x :: xs =>
    if x.txid = r.txid ∧ x.outputIndex = r.outputIndex then r :: xs
    else x :: dictAssign r xs

/-- The `if key in all_utxos: ... spent_txid = ...; spent_index = ...` step of
`rebuild_utxo_set`: overwrite the spent marker of the entry for the key when
it is present (unconditionally, unlike the store's conditional UPDATE). -/
def dictSpend (inputTxid : String) (inputIndex : Int) (spenderTxid : String)
    (spenderIndex : Nat) (d : List UtxoRec) : List UtxoRec :=
  d.map (fun x =>
    if x.txid = inputTxid ∧ x.outputIndex = inputIndex then
      { x with spentTxid := some spenderTxid, spentIndex := some spenderIndex }
    else x)

/-- The per-transaction body of `QuantumLedger.rebuild_utxo_set`: record all
outputs as fresh unspent entries, then, for a non-coinbase transaction, mark
the entry of each referenced key spent (`spent_index` is the position of the
first input equal in value to the one at hand, matching the source's
`tx.inputs.index(tx_input)` for value-distinct inputs; no claim reads it). -/
def rebuildTxStep (t : Transaction) (d : List UtxoRec) : List UtxoRec :=
  let d1 := t.outputs.enum.foldl
    (fun d p => dictAssign (mkOutRec t.txid p) d) d
  if ¬ coinbaseSentinel t then
    t.inputs.foldl
      (fun d inp => dictSpend inp.txid inp.outputIndex t.txid
        (t.inputs.indexOf inp) d) d1
  else d1

/-- The accumulated `all_utxos` dictionary of `rebuild_utxo_set` after
replaying the whole chain. -/
def rebuildDict (chain : List Block) : List UtxoRec :=
  chain.foldl
    (fun d b => b.transactions.foldl (fun d t => rebuildTxStep t d) d) []

/-- `QuantumLedger.rebuild_utxo_set`: clear the store, replay the chain, and
insert only the entries that are still unspent. -/
def rebuildUtxoSet (chain : List Block) : UtxoStore :=
  (rebuildDict chain).filter (fun r => ¬ r.isSpent)

/-- `QuantumLedger.add_transaction`: reject when invalid against the current
UTXO view, reject a txid already pending, otherwise append to the mempool. -/
def addTransaction (t : Transaction) (st : LedgerState) :
    Bool × LedgerState :=
  if ¬ txIsValid st.udb t then (false, st)
  else if st.pending.any (fun p => p.txid == t.txid) then (false, st)
  else (true, { st with pending := st.pending ++ [t] })

/-- `QuantumLedger._create_coinbase_tx`: one sentinel input, one output; the
signature tag and the sentinel public key are set on the input only after the
txid has been computed (so the txid hashes a null pub_key and signature). -/
def createCoinbaseTx (hashTx : TxDict → String) (recipient : String)
    (amount : ℚ) (now : ℚ) : Transaction :=
  let t := mkTransaction hashTx
    [{ txid := zeros128, outputIndex := -1 }]
    [{ amount := amount, address := recipient }]
    TRANSACTION_VERSION now
  { t with inputs := [{ txid := zeros128
                        outputIndex := -1
                        signature := some "COINBASE"
                        pubKey := some zeros128 }] }

/-- `QuantumLedger.create_genesis_block`, reached on a fresh start: build the
genesis coinbase paying `MINER_REWARD * 1000` to the miner, commit the block
of height 0 with `previous_hash = "0" * 128` (the save into the empty store
succeeds), and run `_update_utxo_set(genesis_block, is_spend=False)`. -/
def createGenesisState (hashS : String → String) (hashTx : TxDict → String)
    (hashHeader : HeaderDict → String) (minerAddress : String) (now : ℚ) :
    LedgerState :=
  let tx := createCoinbaseTx hashTx minerAddress (MINER_REWARD * 1000) now
  let b := mkBlock hashS hashHeader 0 [tx] zeros128 0 now
  { chain := [b]
    udb := updateUtxoSet b false []
    pending := []
    currentDifficulty := INITIAL_DIFFICULTY
    minerAddress := minerAddress }

/-- `QuantumLedger._adjust_difficulty`: retarget only when the chain length is
a multiple of `DIFFICULTY_ADJUSTMENT_INTERVAL` and exceeds 1, comparing the
time taken over the last interval (tip timestamp minus the timestamp of
`chain[-INTERVAL]`) against the expected time. -/
def adjustDifficulty (chain : List Block) (d : Nat) : Nat :=
  if chain.length % DIFFICULTY_ADJUSTMENT_INTERVAL = 0 ∧ 1 < chain.length then
    if (chain.getLastD default).timestamp -
        (chain.getD (chain.length - DIFFICULTY_ADJUSTMENT_INTERVAL)
          default).timestamp
        < BLOCK_TIME_TARGET * (DIFFICULTY_ADJUSTMENT_INTERVAL : ℚ) / 2 then
      d + 1
    else if (chain.getLastD default).timestamp -
        (chain.getD (chain.length - DIFFICULTY_ADJUSTMENT_INTERVAL)
          default).timestamp
        > BLOCK_TIME_TARGET * (DIFFICULTY_ADJUSTMENT_INTERVAL : ℚ) * 2 then
      max 1 (d - 1)
    else d
  else d

/-- Python `s.startswith("0" * n)`: the first `n` characters exist and are all
`'0'`. -/
def leadingZeros (n : Nat) (s : String) : Bool :=
  s.data.take n == List.replicate n '0'

/-- The success test of one `proof_of_work` iteration. -/
def powCheck (hashS : String → String) (difficulty : Nat) (header : String)
    (p : Nat) : Bool :=
  leadingZeros difficulty (hashS (header ++ toString p))

/-- `QuantumLedger.proof_of_work`: a linear scan for a nonce whose hash
carries the difficulty prefix.  The source loops unboundedly; the embedding
carries explicit fuel and returns `none` on exhaustion. -/
def proofOfWorkFuel (hashS : String → String) (difficulty : Nat)
    (header : String) : Nat → Nat → Option Nat
  | 0, _ => none
  | fuel + 1, p =>
    if powCheck hashS difficulty header p then some p
    else proofOfWorkFuel hashS difficulty header fuel (p + 1)

/-- The fee lookup of `mine_block`:
`sum(self.udb.get_utxo_by_id(i.txid, i.output_index).amount for i in tx.inputs)`.
The source dereferences the row unconditionally; mine-time validation
guarantees it exists, and a missing row contributes 0 here. -/
def inputsAmount (udb : UtxoStore) (inputs : List TxInput) : ℚ :=
  (inputs.map (fun i =>
    ((getUtxoById i.txid i.outputIndex udb).map (fun u => u.amount)).getD 0)).sum

def outputsAmount (t : Transaction) : ℚ :=
  (t.outputs.map (fun o => o.amount)).sum

/-- `LedgerDBManager.save_block`: the INSERT fails (IntegrityError) when a
stored block already carries the same height or the same hash. -/
def saveBlockOk (chain : List Block) (b : Block) : Bool :=
  ¬ chain.any (fun x => x.index == b.index || x.hash == b.hash)

/-- `QuantumLedger.mine_block`, with the wall clock passed in as `now` and the
proof-of-work search bounded by `fuel`.  Returns the mined block together
with the successor state, or `none` when there is nothing to mine, the
search exhausts its fuel, or the block store insert fails (the source also
mutates the mempool and difficulty on those paths; no claim inspects them). -/
def mineBlock (hashS : String → String) (hashTx : TxDict → String)
    (hashHeader : HeaderDict → String) (fuel : Nat) (now : ℚ)
    (st : LedgerState) : Option (Block × LedgerState) :=
  if st.pending.isEmpty then none
  else
    let d := adjustDifficulty st.chain st.currentDifficulty
    let validated := st.pending.filter (fun t => txIsValid st.udb t)
    if validated.isEmpty then none
    else
      let fees := (validated.map (fun t =>
        inputsAmount st.udb t.inputs - outputsAmount t)).sum
      let rewardTx := createCoinbaseTx hashTx st.minerAddress
        (MINER_REWARD + fees) now
      let finalTxs := rewardTx :: validated
      let mr := calculateMerkleRoot hashS finalTxs
      let prevHash := (st.chain.getLastD default).hash
      let header := toString st.chain.length ++ prevHash ++ mr
      match proofOfWorkFuel hashS d header fuel 0 with
      | none => none
      | some proof =>
        let newBlock : Block :=
          { index := st.chain.length
            timestamp := now
            transactions := finalTxs
            previousHash := prevHash
            proof := proof
            merkleRoot := mr
            hash := hashHeader
              { index := st.chain.length, timestamp := now
                previousHash := prevHash, merkleRoot := mr, proof := proof } }
        if saveBlockOk st.chain newBlock then
          let minedIds := validated.map (fun t => t.txid)
          some (newBlock,
            { st with
              chain := st.chain ++ [newBlock]
              udb := updateUtxoSet newBlock true st.udb
              pending := validated.filter
                (fun t => ¬ minedIds.contains t.txid)
              currentDifficulty := d })
        else none

/-- The per-position check of `QuantumLedger.is_chain_valid`: the hash link to
the predecessor (for positions past 0), the relaxed one-leading-zero check and
the Merkle recomputation are applied at every position, including position 0. -/
def blockCheck (hashS : String → String) (chain : List Block) (i : Nat) :
    Bool :=
  let b := chain.getD i default
  (if 0 < i then b.previousHash == (chain.getD (i - 1) default).hash
   else true)
  && leadingZeros 1 b.hash
  && (b.merkleRoot == calculateMerkleRoot hashS b.transactions)

/-- `QuantumLedger.is_chain_valid` over an explicit chain. -/
def isChainValid (hashS : String → String) (chain : List Block) : Bool :=
  (List.range chain.length).all (fun i => blockCheck hashS chain i)

/-- Modelled from the spec's words, for comparison with `isChainValid`:
"Structural validity for a foreign chain requires, for each block i ≥ 1" the
hash link, the Merkle recomputation and the one-leading-zero check — with no
condition on the block at position 0. -/
def isChainValidClaimed (hashS : String → String) (chain : List Block) :
    Bool :=
  (List.range chain.length).all (fun i =>
    if i = 0 then true
    else
      let b := chain.getD i default
      (b.previousHash == (chain.getD (i - 1) default).hash)
      && (b.merkleRoot == calculateMerkleRoot hashS b.transactions)
      && leadingZeros 1 b.hash)

/-! ## Views of the UTXO store, and the simulation relation used to compare
the rebuild path with the incremental path -/

/-- The record stored under a key, projected to what the unspent set exposes:
the owning address and the amount of a currently unspent record. -/
def unspentViewAt (k : String × Int) (l : UtxoStore) :
    Option (String × ℚ) :=
  match getUtxoById k.1 k.2 l with
  | some r => if r.spentTxid = none then some (r.address, r.amount) else none
  | none => none

/-- All transactions of a chain, in commit order. -/
def chainTxs (chain : List Block) : List Transaction :=
  chain.flatMap (fun b => b.transactions)

/-- The simulation relation between the entry the rebuild dictionary holds at
a key and the entry the incremental store holds there: both absent, or both
present with the same address and amount and the same spentness (the stored
spender columns may differ between the two paths and are never part of the
unspent set). -/
def SpentnessRel : Option UtxoRec → Option UtxoRec → Prop
  | none, none => True
  | some a, some b =>
      a.address = b.address ∧ a.amount = b.amount ∧
        (a.spentTxid = none ↔ b.spentTxid = none)
  | _, _ => False

/-- Pairwise distinctness of primary keys in a store. -/
def KeysUnique (l : List UtxoRec) : Prop :=
  l.Pairwise (fun a b => (a.txid, a.outputIndex) ≠ (b.txid, b.outputIndex))

/-! ## Concrete instances used by the settled claims -/

/-- A hash function for concrete runs where digest values are irrelevant. -/
def hashS1 : String → String := fun _ => "0"

def hashTx1 : TxDict → String := fun _ => "c"

def hashHd1 : HeaderDict → String := fun _ => "h"

/-- The identity taken as the string hasher where no digest is ever needed. -/
def hashIdS : String → String := fun s => s

/-- A 6758-character mock signature (valid length for the Dilithium-3 mock). -/
def sigA : String := String.mk (List.replicate 6758 'a')

/-- Another 6758-character string: a same-length tampering of `sigA`. -/
def sigB : String := String.mk (List.replicate 6758 'b')

/-- A committed block standing for the tip before the double-spend scenario. -/
def b0C1 : Block :=
  { index := 0, timestamp := 0, transactions := [], previousHash := zeros128
    proof := 0, merkleRoot := zeros128, hash := "1" }

/-- An unspent output of 10 coins held by address P. -/
def utxoC1 : UtxoRec := { txid := "T", outputIndex := 0, address := "P", amount := 10 }

/-- The input both double-spenders use: a reference to `(T, 0)` with a
full-length mock signature. -/
def inpC1 : TxInput :=
  { txid := "T", outputIndex := 0, signature := some sigA, pubKey := some "P" }

def outQ : TxOutput := { amount := 10, address := "Q" }

def outR : TxOutput := { amount := 10, address := "R" }

/-- First spender of `utxoC1`. -/
def tx1C1 : Transaction :=
  { version := 1, timestamp := 0, inputs := [inpC1], outputs := [outQ]
    txid := "t1" }

/-- Second spender of the same output `(T, 0)`. -/
def tx2C1 : Transaction :=
  { version := 1, timestamp := 0, inputs := [inpC1], outputs := [outR]
    txid := "t2" }

/-- A ledger state whose mempool holds two transactions spending the same
unspent output. -/
def stC1 : LedgerState :=
  { chain := [b0C1], udb := [utxoC1], pending := [tx1C1, tx2C1]
    currentDifficulty := 1, minerAddress := "M" }

/-- A coinbase-like transaction with txid `A` paying 5 to P. -/
def txA3 : Transaction :=
  { version := 1, timestamp := 0
    inputs := [{ txid := zeros128, outputIndex := -1 }]
    outputs := [{ amount := 5, address := "P" }], txid := "A" }

/-- A transaction with txid `B` spending output `(A, 0)`. -/
def txB3 : Transaction :=
  { version := 1, timestamp := 0
    inputs := [{ txid := "A", outputIndex := 0 }]
    outputs := [{ amount := 5, address := "Q" }], txid := "B" }

/-- A block holding the given transactions (header fields irrelevant to the
UTXO replay functions). -/
def blkOf (txs : List Transaction) : Block :=
  { index := 0, timestamp := 0, transactions := txs, previousHash := ""
    proof := 0, merkleRoot := "", hash := "" }

/-- A chain in which the transaction `A` is committed twice, its output being
spent in between. -/
def chainC3dup : List Block := [blkOf [txA3], blkOf [txB3], blkOf [txA3]]

/-- A duplicate-free chain: `A` committed once, then spent by `B`. -/
def chainC3w : List Block := [blkOf [txA3], blkOf [txB3]]

/-- A block with a given timestamp (other fields irrelevant to retargeting). -/
def blkTs (ts : ℚ) : Block :=
  { index := 0, timestamp := ts, transactions := [], previousHash := ""
    proof := 0, merkleRoot := "", hash := "" }

/-- Six committed blocks — tip height 5, a non-zero multiple of the
adjustment interval — whose last interval took 1 second. -/
def chainC4 : List Block :=
  [blkTs 0, blkTs 0, blkTs 0, blkTs 0, blkTs 0, blkTs 1]

/-- Five committed blocks whose last interval took 1 second. -/
def chainC4w : List Block := [blkTs 0, blkTs 0, blkTs 0, blkTs 0, blkTs 1]

/-- A single-block chain whose stored hash has no leading zero; its Merkle
root matches its (empty) transaction list. -/
def bC5 : Block :=
  { index := 0, timestamp := 0, transactions := [], previousHash := "x"
    proof := 0, merkleRoot := zeros128, hash := "f" }

/-- A string hasher that makes the proof-of-work search succeed at nonce 1. -/
def hashPowW : String → String := fun s => if s = "h1" then "0" else "x"

/-- A ledger state holding one unspent output of 5 coins at address P. -/
def stC8 : LedgerState :=
  { chain := [], udb := [{ txid := "Z", outputIndex := 0, address := "P", amount := 5 }]
    pending := [], currentDifficulty := 4, minerAddress := "M" }

/-- A transaction spending `(Z, 0)` with an original full-length signature. -/
def txC8orig : Transaction :=
  { version := 1, timestamp := 0
    inputs := [{ txid := "Z", outputIndex := 0, signature := some sigA
                 pubKey := some "P" }]
    outputs := [{ amount := 5, address := "Q" }], txid := "z1" }

/-- The same transaction with its signature tampered to another string of the
same length. -/
def txC8tam : Transaction :=
  { version := 1, timestamp := 0
    inputs := [{ txid := "Z", outputIndex := 0, signature := some sigB
                 pubKey := some "P" }]
    outputs := [{ amount := 5, address := "Q" }], txid := "z1" }

/-- An empty-store ledger state for the short-signature rejection witness. -/
def stC8w : LedgerState :=
  { chain := [], udb := [], pending := [], currentDifficulty := 4
    minerAddress := "M" }

/-- A transaction whose input signature has the wrong length. -/
def txC8bad : Transaction :=
  { version := 1, timestamp := 0
    inputs := [{ txid := "Z", outputIndex := 0, signature := some "bad"
                 pubKey := some "P" }]
    outputs := [{ amount := 1, address := "Q" }], txid := "zb" }

/-- A constant transaction-dictionary hasher for witnesses. -/
def hashTxW : TxDict → String := fun _ => "k"

/-- A constant mock signer for witnesses. -/
def pqcSignW : String → String → String := fun _ _ => "s"

/-- Three transactions with distinct txids, for the Merkle witness. -/
def txW9a : Transaction :=
  { version := 1, timestamp := 0, inputs := [], outputs := [], txid := "wa" }

def txW9b : Transaction :=
  { version := 1, timestamp := 0, inputs := [], outputs := [], txid := "wb" }

def txW9c : Transaction :=
  { version := 1, timestamp := 0, inputs := [], outputs := [], txid := "wc" }

/-- A string hasher that tags its argument, for the Merkle witness. -/
def hashTagS : String → String := fun s => "(" ++ s ++ ")"

/-! ## Theorems -/

/-! ### Helper lemmas for evaluating validation on full-length signatures
(the 6758-character strings are handled by rewriting, never by deep
reduction) -/

theorem sigA_len : sigA.length = 6758 := by
  have h1 : sigA.length = (List.replicate 6758 'a').length := rfl
  rw [h1, List.length_replicate]

theorem sigB_len : sigB.length = 6758 := by
  have h1 : sigB.length = (List.replicate 6758 'b').length := rfl
  rw [h1, List.length_replicate]

theorem sigA_ne_sigB : sigA ≠ sigB := by
  intro h
  have h2 : sigA.data.headD ' ' = sigB.data.headD ' ' := by rw [h]
  rw [show sigA.data.headD ' ' = 'a' from rfl,
    show sigB.data.headD ' ' = 'b' from rfl] at h2
  exact absurd h2 (by decide)

/-- The input loop of `is_valid` on a single input whose referenced UTXO
exists, is unspent, is owned by the input's public key, and whose signature
has the scheme's length. -/
theorem validInputsSum_single (udb : UtxoStore) (dv : String) (i : TxInput)
    (acc : ℚ) (u : UtxoRec) (s : String)
    (hu : getUtxoById i.txid i.outputIndex udb = some u)
    (hs : u.isSpent = false) (hpk : i.pubKey = some u.address)
    (hsig : i.signature = some s) (hlen : s.length = dilithiumSigHexLen) :
    validInputsSum udb dv [i] acc = some (acc + u.amount) := by
  simp [validInputsSum, hu, hs, hpk, hsig, pqcVerify, hlen]

/-- `is_valid` holds once the input loop succeeds with a sufficient sum. -/
theorem txIsValid_of_inputs (udb : UtxoStore) (t : Transaction) (q : ℚ)
    (hout : t.outputs.isEmpty = false)
    (hval : validInputsSum udb t.txid t.inputs 0 = some q)
    (hq : ¬ q < (t.outputs.map (fun o => o.amount)).sum) :
    txIsValid udb t = true := by
  simp [txIsValid, hout, hval, hq]

theorem tx1C1_valid : txIsValid [utxoC1] tx1C1 = true := by
  refine txIsValid_of_inputs _ _ (0 + 10) rfl ?_ ?_
  · exact validInputsSum_single _ _ _ _ utxoC1 sigA
      (by with_unfolding_all decide) rfl rfl rfl sigA_len
  · with_unfolding_all decide

theorem tx2C1_valid : txIsValid [utxoC1] tx2C1 = true := by
  refine txIsValid_of_inputs _ _ (0 + 10) rfl ?_ ?_
  · exact validInputsSum_single _ _ _ _ utxoC1 sigA
      (by with_unfolding_all decide) rfl rfl rfl sigA_len
  · with_unfolding_all decide

theorem txC8tam_valid :
    txIsValid [{ txid := "Z", outputIndex := 0, address := "P", amount := 5 }]
      txC8tam = true := by
  refine txIsValid_of_inputs _ _ (0 + 5) rfl ?_ ?_
  · exact validInputsSum_single _ _ _ _
      { txid := "Z", outputIndex := 0, address := "P", amount := 5 } sigB
      (by with_unfolding_all decide) rfl rfl rfl sigB_len
  · with_unfolding_all decide

/-- Claim C10: `pqc_verify` returns true exactly when the signature is 6758
hex characters long (int(3.3 * 2 * 1024) for the Dilithium-3 mock), and its
result never depends on the public key or on the message digest. -/
theorem pqc_verify_checks_length_only :
    ∀ publicKey dataHash sig : String,
      (pqcVerify publicKey dataHash sig = true ↔ sig.length = 6758) ∧
      ∀ publicKey2 dataHash2 : String,
        pqcVerify publicKey dataHash sig = pqcVerify publicKey2 dataHash2 sig := by
  intro pk dh s
  refine ⟨?_, fun _ _ => rfl⟩
  by_cases hl : s.length = 6758
  · simp [pqcVerify, dilithiumSigHexLen, hl]
  · simp [pqcVerify, dilithiumSigHexLen, hl]

/-- Claim C2 (code bug): on a fresh start the genesis block is created with
the claimed structure — height 0, previous hash the zero sentinel, a single
coinbase transaction with the sentinel input and one output of
`MINER_REWARD * 1000` to the miner — but the UTXO store is NOT seeded from
it: `_update_utxo_set(genesis_block, is_spend=False)` also guards the
`add_utxos` call behind `is_spend`, so the store stays empty and the miner's
balance is 0 instead of `MINER_REWARD * 1000`. -/
theorem genesis_block_correct_but_utxo_not_seeded :
    (createGenesisState hashS1 hashTx1 hashHd1 "M" 0).chain.length = 1 ∧
    ((createGenesisState hashS1 hashTx1 hashHd1 "M" 0).chain.getD 0
      default).previousHash = zeros128 ∧
    ((createGenesisState hashS1 hashTx1 hashHd1 "M" 0).chain.getD 0
      default).index = 0 ∧
    ((createGenesisState hashS1 hashTx1 hashHd1 "M" 0).chain.getD 0
      default).transactions.map (fun t => (t.inputs, t.outputs))
      = [([{ txid := zeros128
             outputIndex := -1
             signature := some "COINBASE"
             pubKey := some zeros128 }],
          [{ amount := MINER_REWARD * 1000, address := "M" }])] ∧
    (createGenesisState hashS1 hashTx1 hashHd1 "M" 0).udb = [] ∧
    balanceOf "M" (createGenesisState hashS1 hashTx1 hashHd1 "M" 0).udb = 0 ∧
    MINER_REWARD * 1000 ≠ (0 : ℚ) := by
  refine ⟨rfl, rfl, rfl, ?_, ?_, ?_, ?_⟩
  · simp [createGenesisState, createCoinbaseTx, mkTransaction, updateUtxoSet,
      mkBlock]
  · rfl
  · rfl
  · norm_num [MINER_REWARD]

/-- Claim C1 (code bug): with two mempool transactions spending the same
unspent output `(T, 0)`, `mine_block` re-validates both against the
pre-block UTXO view, so BOTH are included in the mined block; the second
conditional `mark_spent` fails and its boolean result is discarded, so the
block commit nevertheless succeeds — the chain grows and the UTXO store is
updated — with the output marked spent once, by the first spender. -/
theorem mine_block_commits_double_spend :
    tx1C1 ∈ stC1.pending ∧ tx2C1 ∈ stC1.pending ∧ tx1C1.txid ≠ tx2C1.txid ∧
    tx1C1.inputs.map (fun i => (i.txid, i.outputIndex))
      = tx2C1.inputs.map (fun i => (i.txid, i.outputIndex)) ∧
    (getUtxoById "T" 0 stC1.udb).map (fun u => u.isSpent) = some false ∧
    (mineBlock hashS1 hashTx1 hashHd1 4 0 stC1).map (fun r =>
      (r.1.transactions.map (fun t => t.txid), r.2.chain.length,
       (getUtxoById "T" 0 r.2.udb).map (fun u => u.spentTxid)))
      = some (["c", "t1", "t2"], 2, some (some "t1")) := by
  refine ⟨List.mem_cons_self _ _,
    List.mem_cons_of_mem _ (List.mem_cons_self _ _), by decide, rfl, rfl, ?_⟩
  simp [mineBlock, stC1, tx1C1_valid, tx2C1_valid, adjustDifficulty,
    proofOfWorkFuel, powCheck, leadingZeros, hashS1, hashTx1, hashHd1,
    calculateMerkleRoot, merkleAux, pairHash, createCoinbaseTx, mkTransaction,
    calcTxid, saveBlockOk, updateUtxoSet, incrTxStep, coinbaseSentinel,
    markSpent, addUtxos, addUtxo, getUtxoById, inputsAmount, outputsAmount,
    mkOutRec,
    show tx1C1.txid = "t1" from rfl, show tx2C1.txid = "t2" from rfl,
    show b0C1.hash = "1" from rfl, show b0C1.index = 0 from rfl,
    show tx1C1.inputs = [inpC1] from rfl,
    show tx2C1.inputs = [inpC1] from rfl,
    show inpC1.txid = "T" from rfl, show inpC1.outputIndex = 0 from rfl,
    show tx1C1.outputs = [outQ] from rfl,
    show tx2C1.outputs = [outR] from rfl,
    show utxoC1.txid = "T" from rfl, show utxoC1.outputIndex = 0 from rfl,
    show utxoC1.spentTxid = none from rfl, show utxoC1.amount = 10 from rfl,
    show utxoC1.address = "P" from rfl, (by decide : "T" ≠ zeros128)]

/-- Claim C5 counterexample: `is_chain_valid` applies the one-leading-zero
and Merkle checks to the block at position 0 as well; on a single-block
chain whose block hash has no leading zero the source returns false while
the claim's predicate (conditions on positions i ≥ 1 only) holds. -/
theorem chain_valid_checks_position_zero :
    isChainValid hashIdS [bC5] = false ∧
    isChainValidClaimed hashIdS [bC5] = true := by
  decide

/-- Claim C4 counterexample: on a chain of six blocks the tip height 5 is a
non-zero multiple of `DIFFICULTY_ADJUSTMENT_INTERVAL` and the claim's
comparison `tip.timestamp - chain[tip_height - INTERVAL].timestamp` is far
below half the expected time, so the claim demands an increment to 5;
`_adjust_difficulty` tests the chain length (6) instead and leaves the
difficulty at 4. -/
theorem adjust_difficulty_fires_on_length_not_height :
    (chainC4.length - 1) % DIFFICULTY_ADJUSTMENT_INTERVAL = 0 ∧
    chainC4.length - 1 ≠ 0 ∧
    (chainC4.getD (chainC4.length - 1) default).timestamp -
      (chainC4.getD (chainC4.length - 1 - DIFFICULTY_ADJUSTMENT_INTERVAL)
        default).timestamp
      < BLOCK_TIME_TARGET * (DIFFICULTY_ADJUSTMENT_INTERVAL : ℚ) / 2 ∧
    adjustDifficulty chainC4 4 = 4 ∧ (4 : Nat) ≠ 4 + 1 := by
  with_unfolding_all decide

/-- Claim C4 amended: `_adjust_difficulty` retargets exactly when the chain
length is a multiple of the interval and exceeds 1, comparing the tip
timestamp against `chain[length - INTERVAL]`'s (i.e. tip height + 1 −
INTERVAL): increment when the time taken is below half the expected time,
decrement (clamped to 1) when above double, otherwise unchanged; in all
other situations the difficulty is unchanged. -/
theorem adjust_difficulty_characterization (chain : List Block) (d : Nat) :
    (¬ (chain.length % DIFFICULTY_ADJUSTMENT_INTERVAL = 0 ∧ 1 < chain.length)
      → adjustDifficulty chain d = d) ∧
    (chain.length % DIFFICULTY_ADJUSTMENT_INTERVAL = 0 → 1 < chain.length →
      ((chain.getLastD default).timestamp -
          (chain.getD (chain.length - DIFFICULTY_ADJUSTMENT_INTERVAL)
            default).timestamp
          < BLOCK_TIME_TARGET * (DIFFICULTY_ADJUSTMENT_INTERVAL : ℚ) / 2 →
        adjustDifficulty chain d = d + 1) ∧
      ((chain.getLastD default).timestamp -
          (chain.getD (chain.length - DIFFICULTY_ADJUSTMENT_INTERVAL)
            default).timestamp
          > BLOCK_TIME_TARGET * (DIFFICULTY_ADJUSTMENT_INTERVAL : ℚ) * 2 →
        adjustDifficulty chain d = max 1 (d - 1)) ∧
      (¬ (chain.getLastD default).timestamp -
          (chain.getD (chain.length - DIFFICULTY_ADJUSTMENT_INTERVAL)
            default).timestamp
          < BLOCK_TIME_TARGET * (DIFFICULTY_ADJUSTMENT_INTERVAL : ℚ) / 2 →
       ¬ (chain.getLastD default).timestamp -
          (chain.getD (chain.length - DIFFICULTY_ADJUSTMENT_INTERVAL)
            default).timestamp
          > BLOCK_TIME_TARGET * (DIFFICULTY_ADJUSTMENT_INTERVAL : ℚ) * 2 →
        adjustDifficulty chain d = d)) := by
  unfold adjustDifficulty
  refine ⟨fun h => by rw [if_neg h], fun h1 h2 => ⟨fun hlt => ?_,
    fun hgt => ?_, fun hnlt hngt => ?_⟩⟩
  · rw [if_pos ⟨h1, h2⟩, if_pos hlt]
  · have hc : BLOCK_TIME_TARGET * (DIFFICULTY_ADJUSTMENT_INTERVAL : ℚ) = 50 := by
      norm_num [BLOCK_TIME_TARGET, DIFFICULTY_ADJUSTMENT_INTERVAL]
    rw [if_pos ⟨h1, h2⟩,
      if_neg (by intro hlt; rw [hc] at hlt hgt; linarith), if_pos hgt]
  · rw [if_pos ⟨h1, h2⟩, if_neg hnlt, if_neg hngt]

/-- Witness for the amended C4 retarget rule: five blocks mined 1 second
apart raise the difficulty from 4 to 5. -/
theorem adjust_difficulty_characterization_witness :
    chainC4w.length % DIFFICULTY_ADJUSTMENT_INTERVAL = 0 ∧
    1 < chainC4w.length ∧
    adjustDifficulty chainC4w 4 = 4 + 1 :=
  ⟨by decide, by decide,
    ((adjust_difficulty_characterization chainC4w 4).2 (by decide)
        (by decide)).1 (by with_unfolding_all decide)⟩

/-- Claim C5 amended: `is_chain_valid` accepts exactly the chains whose every
position past 0 links to its predecessor's stored hash, and whose EVERY
position — including 0 — passes the Merkle recomputation and the relaxed
one-leading-zero hash check. -/
theorem chain_valid_characterization (hashS : String → String)
    (chain : List Block) :
    isChainValid hashS chain = true ↔
      ((∀ i, 0 < i → i < chain.length →
          (chain.getD i default).previousHash
            = (chain.getD (i - 1) default).hash) ∧
       (∀ i, i < chain.length →
          leadingZeros 1 (chain.getD i default).hash = true ∧
          (chain.getD i default).merkleRoot
            = calculateMerkleRoot hashS (chain.getD i default).transactions)) := by
  rw [isChainValid, List.all_eq_true]
  constructor
  · intro h
    refine ⟨fun i hi hlen => ?_, fun i hlen => ?_⟩
    · have hb := h i (List.mem_range.mpr hlen)
      rw [blockCheck] at hb
      simp only [Bool.and_eq_true, beq_iff_eq] at hb
      have := hb.1.1
      rw [if_pos hi] at this
      simpa using this
    · have hb := h i (List.mem_range.mpr hlen)
      rw [blockCheck] at hb
      simp only [Bool.and_eq_true, beq_iff_eq] at hb
      exact ⟨hb.1.2, hb.2⟩
  · intro h i hi
    have hlen := List.mem_range.mp hi
    rw [blockCheck]
    simp only [Bool.and_eq_true, beq_iff_eq]
    refine ⟨⟨?_, (h.2 i hlen).1⟩, (h.2 i hlen).2⟩
    by_cases hz : 0 < i
    · rw [if_pos hz]
      simpa using h.1 i hz hlen
    · rw [if_neg hz]

/-- The linear scan of `proof_of_work`, started at `p`: a found proof is in
range, passes the check, and every candidate from `p` up to it fails. -/
theorem proofOfWorkFuel_minimal (hashS : String → String) (d : Nat)
    (header : String) :
    ∀ (fuel p v : Nat), proofOfWorkFuel hashS d header fuel p = some v →
      p ≤ v ∧ powCheck hashS d header v = true ∧
        ∀ w, p ≤ w → w < v → powCheck hashS d header w = false := by
  intro fuel
  induction fuel with
  | zero => intro p v h; exact absurd h (by simp [proofOfWorkFuel])
  | succ n ih =>
    intro p v h
    rw [proofOfWorkFuel] at h
    by_cases hc : powCheck hashS d header p = true
    · rw [if_pos hc] at h
      obtain rfl : p = v := Option.some.inj h
      exact ⟨le_refl p, hc, fun w hw1 hw2 => absurd hw1 (by omega)⟩
    · rw [if_neg hc] at h
      obtain ⟨h1, h2, h3⟩ := ih (p + 1) v h
      refine ⟨by omega, h2, fun w hw1 hw2 => ?_⟩
      by_cases hwp : w = p
      · subst hwp; exact Bool.not_eq_true _ ▸ hc
      · exact h3 w (by omega) hw2

/-- Claim C6: whenever the proof-of-work search returns, the returned nonce
is the least one whose header hash carries the difficulty prefix; and every
block `mine_block` produces carries such a minimal proof for
`concat(str(index), previous_hash, merkle_root)` at the difficulty the state
was left with. -/
theorem proof_of_work_returns_minimal (hashS : String → String)
    (hashTx : TxDict → String) (hashHeader : HeaderDict → String) :
    (∀ (d : Nat) (header : String) (fuel v : Nat),
      proofOfWorkFuel hashS d header fuel 0 = some v →
        powCheck hashS d header v = true ∧
        ∀ w, w < v → powCheck hashS d header w = false) ∧
    (∀ (fuel : Nat) (now : ℚ) (st : LedgerState) (b : Block)
       (st2 : LedgerState),
      mineBlock hashS hashTx hashHeader fuel now st = some (b, st2) →
        powCheck hashS st2.currentDifficulty
          (toString b.index ++ b.previousHash ++ b.merkleRoot) b.proof = true ∧
        ∀ w, w < b.proof → powCheck hashS st2.currentDifficulty
          (toString b.index ++ b.previousHash ++ b.merkleRoot) w = false) := by
  constructor
  · intro d header fuel v h
    obtain ⟨_, h2, h3⟩ := proofOfWorkFuel_minimal hashS d header fuel 0 v h
    exact ⟨h2, fun w hw => h3 w (Nat.zero_le w) hw⟩
  · intro fuel now st b st2 h
    rw [mineBlock] at h
    split at h
    · exact absurd h (by simp)
    · dsimp only at h
      split at h
      · exact absurd h (by simp)
      · split at h
        · exact absurd h (by simp)
        · rename_i proof hpow
          split at h
          · rename_i hsave
            obtain ⟨hb, hst⟩ := Prod.mk.injEq .. ▸ Option.some.inj h
            subst hb
            subst hst
            dsimp only
            obtain ⟨_, h2, h3⟩ := proofOfWorkFuel_minimal hashS _ _ fuel 0
              proof hpow
            exact ⟨h2, fun w hw => h3 w (Nat.zero_le w) hw⟩
          · exact absurd h (by simp)

/-! ### Mempool admission lemmas (claim C8) -/

/-- The input loop rejects any transaction one of whose inputs carries a
signature of the wrong length: `pqc_verify` fails there, and every earlier
failure also yields rejection. -/
theorem validInputsSum_none_of_badsig (udb : UtxoStore) (dv : String) :
    ∀ (inputs : List TxInput) (acc : ℚ) (i : TxInput), i ∈ inputs →
      ∀ s : String, i.signature = some s → s.length ≠ dilithiumSigHexLen →
      validInputsSum udb dv inputs acc = none := by
  intro inputs
  induction inputs with
  | nil => intro acc i hmem; exact absurd hmem (List.not_mem_nil _)
  | cons a t ih =>
    intro acc i hmem s hsig hlen
    rcases List.mem_cons.mp hmem with rfl | hmem2
    · rw [validInputsSum]
      cases hu : getUtxoById i.txid i.outputIndex udb with
      | none => rfl
      | some u => simp [hsig, pqcVerify, hlen]
    · rw [validInputsSum]
      cases hu : getUtxoById a.txid a.outputIndex udb with
      | none => rfl
      | some u =>
        by_cases h1 : u.isSpent
        · simp [h1]
        · by_cases h2 : a.pubKey ≠ some u.address
          · simp [h1, h2]
          · cases hs2 : a.signature with
            | none => simp [h1, h2, hs2]
            | some s2 =>
              by_cases h3 : pqcVerify (a.pubKey.getD "") dv s2 = false
              · simp [h1, h2, hs2, h3]
              · simp only [h1, h2, hs2, h3, Bool.false_eq_true, if_false,
                  ite_false, ite_true, if_neg, Bool.not_eq_true]
                rw [if_neg (by simp)]
                exact ih _ i hmem2 s hsig hlen

/-- `is_valid` rejects a transaction one of whose inputs carries a signature
of the wrong length. -/
theorem txIsValid_false_of_badsig (udb : UtxoStore) (t : Transaction)
    (i : TxInput) (hmem : i ∈ t.inputs) (s : String)
    (hsig : i.signature = some s) (hlen : s.length ≠ dilithiumSigHexLen) :
    txIsValid udb t = false := by
  rw [txIsValid]
  by_cases hout : t.outputs.isEmpty
  · rw [if_pos hout]
  · rw [if_neg hout]
    rw [validInputsSum_none_of_badsig udb t.txid t.inputs 0 i hmem s hsig hlen]
    rfl

/-- Claim C8 amended: `add_transaction` answers true and appends exactly when
the transaction is valid against the current UTXO view and its txid is not
already pending; it answers false and leaves the state unchanged otherwise.
A tampering that changes the signature's length is always rejected with the
mempool unchanged (a same-length tampering is not: the mock verifier checks
only the length). -/
theorem add_transaction_admission (st : LedgerState) (t : Transaction) :
    ((addTransaction t st).1 = true ↔
      (txIsValid st.udb t = true ∧
       st.pending.any (fun p => p.txid == t.txid) = false)) ∧
    ((addTransaction t st).1 = true →
      (addTransaction t st).2 = { st with pending := st.pending ++ [t] }) ∧
    ((addTransaction t st).1 = false → (addTransaction t st).2 = st) ∧
    (∀ i ∈ t.inputs, ∀ s : String, i.signature = some s →
      s.length ≠ dilithiumSigHexLen → addTransaction t st = (false, st)) := by
    refine ⟨?_, ?_, ?_, ?_⟩
    · rw [addTransaction]
      split_ifs with h1 h2 <;> simp_all
    · rw [addTransaction]
      split_ifs with h1 h2 <;> simp_all
    · rw [addTransaction]
      split_ifs with h1 h2 <;> simp_all
    · intro i hmem s hsig hlen
      have hval := txIsValid_false_of_badsig st.udb t i hmem s hsig hlen
      rw [addTransaction, if_pos (by simp [hval])]

/-- Witness for the amended C8: a transaction whose only input carries the
3-character signature "bad" is rejected and the mempool is unchanged. -/
theorem add_transaction_admission_witness :
    addTransaction txC8bad stC8w = (false, stC8w) :=
  (add_transaction_admission stC8w txC8bad).2.2.2
    { txid := "Z", outputIndex := 0, signature := some "bad"
      pubKey := some "P" }
    (List.mem_cons_self _ _) "bad" rfl (by decide)

/-- Claim C8 counterexample: tampering an admitted transaction's input
signature into a DIFFERENT string of the same length still passes
`is_valid` (the mock verifier checks only the length), so `add_transaction`
answers true and the mempool grows — the claim's blanket rejection of
tampered signatures fails. -/
theorem add_transaction_accepts_same_length_tamper :
    txC8tam.inputs.map stripSig = txC8orig.inputs.map stripSig ∧
    txC8tam.inputs.map (fun i => i.signature)
      ≠ txC8orig.inputs.map (fun i => i.signature) ∧
    (addTransaction txC8tam stC8).1 = true ∧
    (addTransaction txC8tam stC8).2.pending.length
      = stC8.pending.length + 1 := by
  refine ⟨rfl, ?_, ?_, ?_⟩
  · intro h
    have h2 := congrArg (fun l => l.headD none) h
    have h3 : some sigB = some sigA := by simpa [txC8tam, txC8orig] using h2
    exact sigA_ne_sigB (Option.some.inj h3).symm
  · simp [addTransaction, txC8tam_valid, stC8]
  · simp [addTransaction, txC8tam_valid, stC8]

/-! ### Merkle-root lemmas (claim C9) -/

theorem getLastD_map {A B : Type} (f : A → B) :
    ∀ (l : List A) (a : A), (l.map f).getLastD (f a) = f (l.getLastD a)
  | [], a => rfl
  | b :: t, a => by
      rw [List.map_cons, List.getLastD_cons, List.getLastD_cons]
      exact getLastD_map f t b

theorem getLastD_indep {A : Type} :
    ∀ (l : List A), l ≠ [] → ∀ d1 d2 : A, l.getLastD d1 = l.getLastD d2
  | [], h, _, _ => absurd rfl h
  | _ :: t, _, d1, d2 => by rw [List.getLastD_cons, List.getLastD_cons]

/-- One unfolding of the pairing loop on an odd level of more than one hash:
duplicating the last entry up front changes nothing, because the loop pads
exactly that way before pairing. -/
theorem merkleAux_dup_odd (hashS : String → String) (hs : List String)
    (hodd : hs.length % 2 = 1) (hlen : 1 < hs.length) :
    merkleAux hashS hs = merkleAux hashS (hs ++ [hs.getLastD ""]) := by
  conv_lhs => rw [merkleAux]
  conv_rhs => rw [merkleAux]
  rw [dif_neg (show ¬ hs.length ≤ 1 by omega),
    dif_neg (show ¬ (hs ++ [hs.getLastD ""]).length ≤ 1 by
      simp only [List.length_append, List.length_cons, List.length_nil]
      omega)]
  dsimp only
  rw [if_pos hodd,
    if_neg (show ¬ (hs ++ [hs.getLastD ""]).length % 2 = 1 by
      simp only [List.length_append, List.length_cons, List.length_nil]
      omega)]

/-- Claim C9: the Merkle root of the empty transaction list is the
128-zero sentinel, and for every transaction list of odd length greater
than one the root is unchanged by duplicating the last transaction. -/
theorem merkle_empty_and_duplicate_last (hashS : String → String) :
    calculateMerkleRoot hashS [] = zeros128 ∧
    ∀ txs : List Transaction, txs.length % 2 = 1 → 1 < txs.length →
      calculateMerkleRoot hashS txs
        = calculateMerkleRoot hashS (txs ++ [txs.getLastD default]) := by
  refine ⟨rfl, fun txs hodd hlen => ?_⟩
  have hne : txs ≠ [] := by intro h; subst h; simp at hlen
  rw [calculateMerkleRoot, calculateMerkleRoot,
    if_neg (by simp [List.isEmpty_iff, hne]),
    if_neg (by simp [List.isEmpty_iff])]
  rw [List.map_append, List.map_cons, List.map_nil]
  have hmap : (txs.map (fun t => t.txid)).getLastD ""
      = (txs.getLastD default).txid := by
    rw [getLastD_indep (txs.map (fun t => t.txid))
      (by simp [hne]) "" ((default : Transaction).txid)]
    exact getLastD_map (fun t => t.txid) txs default
  rw [← hmap]
  exact merkleAux_dup_odd hashS (txs.map (fun t => t.txid))
    (by simpa using hodd) (by simpa using hlen)

/-- Witness for C9 at a concrete three-transaction list. -/
theorem merkle_empty_and_duplicate_last_witness :
    ([txW9a, txW9b, txW9c] : List Transaction).length % 2 = 1 ∧
    1 < ([txW9a, txW9b, txW9c] : List Transaction).length ∧
    calculateMerkleRoot hashTagS [txW9a, txW9b, txW9c]
      = calculateMerkleRoot hashTagS
          ([txW9a, txW9b, txW9c] ++ [[txW9a, txW9b, txW9c].getLastD default]) :=
  ⟨rfl, by decide,
    (merkle_empty_and_duplicate_last hashTagS).2 [txW9a, txW9b, txW9c]
      rfl (by decide)⟩

/-! ### Txid lemmas (claim C7) -/

theorem toDict_stripSig (i : TxInput) :
    TxInput.toDict false (stripSig i) = TxInput.toDict false i := rfl

theorem map_toDict_of_stripSig_eq (ins1 ins2 : List TxInput)
    (h : ins1.map stripSig = ins2.map stripSig) :
    ins1.map (TxInput.toDict false) = ins2.map (TxInput.toDict false) := by
  have key : ∀ l : List TxInput,
      l.map (TxInput.toDict false)
        = (l.map stripSig).map (TxInput.toDict false) := by
    intro l
    rw [List.map_map]
    exact (List.map_congr_left (fun i _ => (toDict_stripSig i).symm))
  rw [key ins1, key ins2, h]

theorem set_sig_map_toDict :
    ∀ (l : List TxInput) (idx : Nat) (s : String),
      (l.set idx { l.getD idx default with signature := some s }).map
          (TxInput.toDict false)
        = l.map (TxInput.toDict false)
  | [], _, _ => rfl
  | a :: t, 0, s => rfl
  | a :: t, n + 1, s => by
      simp only [List.set, List.map_cons]
      rw [show (a :: t).getD (n + 1) default = t.getD n default from rfl]
      rw [set_sig_map_toDict t n s]

/-- Claim C7: a transaction's stored txid is the canonical hash of its
signature-free dictionary form; transactions built from inputs that agree
once signatures are stripped get the same txid; and `sign_input` neither
changes the stored txid nor its recomputability from the signature-free
serialization. -/
theorem txid_ignores_signatures (hashTx : TxDict → String)
    (pqcSignF : String → String → String) :
    (∀ (ins : List TxInput) (outs : List TxOutput) (v : Nat) (ts : ℚ),
      (mkTransaction hashTx ins outs v ts).txid
        = hashTx (Transaction.toDict false (mkTransaction hashTx ins outs v ts))) ∧
    (∀ (ins1 ins2 : List TxInput) (outs : List TxOutput) (v : Nat) (ts : ℚ),
      ins1.map stripSig = ins2.map stripSig →
      (mkTransaction hashTx ins1 outs v ts).txid
        = (mkTransaction hashTx ins2 outs v ts).txid) ∧
    (∀ (pk : String) (idx : Nat) (ins : List TxInput) (outs : List TxOutput)
       (v : Nat) (ts : ℚ),
      (Transaction.signInput pqcSignF pk idx
          (mkTransaction hashTx ins outs v ts)).txid
        = (mkTransaction hashTx ins outs v ts).txid ∧
      (Transaction.signInput pqcSignF pk idx
          (mkTransaction hashTx ins outs v ts)).txid
        = hashTx (Transaction.toDict false (Transaction.signInput pqcSignF pk
            idx (mkTransaction hashTx ins outs v ts)))) := by
  refine ⟨fun ins outs v ts => rfl, fun ins1 ins2 outs v ts h => ?_, 
    fun pk idx ins outs v ts => ⟨rfl, ?_⟩⟩
  · simp only [mkTransaction, calcTxid, txDictOf]
    rw [map_toDict_of_stripSig_eq ins1 ins2 h]
  · show calcTxid hashTx ins outs ts v = hashTx _
    simp only [Transaction.signInput, Transaction.toDict, mkTransaction,
      calcTxid, txDictOf]
    rw [set_sig_map_toDict]

/-- Witness for C7: two single-input transactions differing only in their
input signature share a txid. -/
theorem txid_ignores_signatures_witness :
    ([{ txid := "t", outputIndex := 0, signature := some "x" }]
        : List TxInput).map stripSig
      = ([{ txid := "t", outputIndex := 0, signature := some "y" }]
        : List TxInput).map stripSig ∧
    (mkTransaction hashTxW
        [{ txid := "t", outputIndex := 0, signature := some "x" }] [] 1 0).txid
      = (mkTransaction hashTxW
        [{ txid := "t", outputIndex := 0, signature := some "y" }] [] 1 0).txid :=
  ⟨by decide,
    (txid_ignores_signatures hashTxW pqcSignW).2.1
      [{ txid := "t", outputIndex := 0, signature := some "x" }]
      [{ txid := "t", outputIndex := 0, signature := some "y" }] [] 1 0
      (by decide)⟩

/-- Witness for C6: a concrete search in which the nonce 0 fails and the
nonce 1 succeeds — the returned proof is 1 and it is minimal. -/
theorem proof_of_work_returns_minimal_witness :
    powCheck hashPowW 1 "h" 1 = true ∧ powCheck hashPowW 1 "h" 0 = false := by
  have h := (proof_of_work_returns_minimal hashPowW hashTx1 hashHd1).1 1 "h" 5 1
    (by decide)
  exact ⟨h.1, h.2 0 (by decide)⟩

/-! ### Pointwise lemmas about the UTXO store operations (claim C3) -/

theorem getUtxoById_nil (kt : String) (ki : Int) :
    getUtxoById kt ki [] = none := rfl

theorem getUtxoById_cons (kt : String) (ki : Int) (r : UtxoRec)
    (l : List UtxoRec) :
    getUtxoById kt ki (r :: l)
      = if r.txid = kt ∧ r.outputIndex = ki then some r
        else getUtxoById kt ki l := by
  simp only [getUtxoById, List.find?_cons]
  by_cases h1 : r.txid = kt
  · by_cases h2 : r.outputIndex = ki
    · simp [h1, h2]
    · simp [h1, h2, beq_eq_false_iff_ne.mpr h2]
  · simp [h1, beq_eq_false_iff_ne.mpr h1]

theorem getUtxoById_some_key (kt : String) (ki : Int) (l : List UtxoRec)
    (r : UtxoRec) (h : getUtxoById kt ki l = some r) :
    r.txid = kt ∧ r.outputIndex = ki := by
  have := List.find?_some h
  simpa using this

theorem getUtxoById_none_of_no_match (kt : String) (ki : Int) :
    ∀ l : List UtxoRec,
      (∀ y ∈ l, ¬ (y.txid = kt ∧ y.outputIndex = ki)) →
      getUtxoById kt ki l = none
  | [], _ => rfl
  | x :: xs, h => by
      rw [getUtxoById_cons, if_neg (h x (List.mem_cons_self x xs))]
      exact getUtxoById_none_of_no_match kt ki xs
        (fun y hy => h y (List.mem_cons_of_mem x hy))

theorem getUtxoById_map (kt : String) (ki : Int) (f : UtxoRec → UtxoRec)
    (hf : ∀ r, (f r).txid = r.txid ∧ (f r).outputIndex = r.outputIndex) :
    ∀ l : List UtxoRec,
      getUtxoById kt ki (l.map f) = (getUtxoById kt ki l).map f
  | [] => rfl
  | r :: l => by
      rw [List.map_cons, getUtxoById_cons, getUtxoById_cons,
        (hf r).1, (hf r).2]
      by_cases h : r.txid = kt ∧ r.outputIndex = ki
      · rw [if_pos h, if_pos h]; rfl
      · rw [if_neg h, if_neg h, getUtxoById_map kt ki f hf l]

theorem getUtxoById_append (kt : String) (ki : Int) :
    ∀ l1 l2 : List UtxoRec,
      getUtxoById kt ki (l1 ++ l2)
        = match getUtxoById kt ki l1 with
          | some r => some r
          | none => getUtxoById kt ki l2
  | [], l2 => rfl
  | r :: l1, l2 => by
      rw [List.cons_append, getUtxoById_cons, getUtxoById_cons]
      by_cases h : r.txid = kt ∧ r.outputIndex = ki
      · rw [if_pos h, if_pos h]
      · rw [if_neg h, if_neg h, getUtxoById_append kt ki l1 l2]

/-- `mark_spent` viewed at one key: the map applies the conditional marker to
whatever record the key holds. -/
theorem getUtxoById_markSpent (kt : String) (ki : Int) (itx : String)
    (iix : Int) (stx : String) (six : Nat) (l : List UtxoRec) :
    getUtxoById kt ki (markSpent itx iix stx six l)
      = (getUtxoById kt ki l).map (fun r =>
          if r.txid = itx ∧ r.outputIndex = iix ∧ r.spentTxid = none
          then { r with spentTxid := some stx, spentIndex := some six }
          else r) := by
  refine getUtxoById_map kt ki _ (fun r => ?_) l
  by_cases h : r.txid = itx ∧ r.outputIndex = iix ∧ r.spentTxid = none
  · rw [if_pos h]; exact ⟨rfl, rfl⟩
  · rw [if_neg h]; exact ⟨rfl, rfl⟩

/-- The rebuild dictionary's unconditional spend-overwrite at one key. -/
theorem getUtxoById_dictSpend (kt : String) (ki : Int) (itx : String)
    (iix : Int) (stx : String) (six : Nat) (l : List UtxoRec) :
    getUtxoById kt ki (dictSpend itx iix stx six l)
      = (getUtxoById kt ki l).map (fun r =>
          if r.txid = itx ∧ r.outputIndex = iix
          then { r with spentTxid := some stx, spentIndex := some six }
          else r) := by
  refine getUtxoById_map kt ki _ (fun r => ?_) l
  by_cases h : r.txid = itx ∧ r.outputIndex = iix
  · rw [if_pos h]; exact ⟨rfl, rfl⟩
  · rw [if_neg h]; exact ⟨rfl, rfl⟩

theorem getUtxoById_dictAssign_self (r : UtxoRec) :
    ∀ d : List UtxoRec,
      getUtxoById r.txid r.outputIndex (dictAssign r d) = some r
  | [] => by rw [dictAssign, getUtxoById_cons, if_pos ⟨rfl, rfl⟩]
  | x :: xs => by
      rw [dictAssign]
      by_cases h : x.txid = r.txid ∧ x.outputIndex = r.outputIndex
      · rw [if_pos h, getUtxoById_cons, if_pos ⟨rfl, rfl⟩]
      · rw [if_neg h, getUtxoById_cons, if_neg h,
          getUtxoById_dictAssign_self r xs]

theorem getUtxoById_dictAssign_ne (kt : String) (ki : Int) (r : UtxoRec)
    (hne : ¬ (r.txid = kt ∧ r.outputIndex = ki)) :
    ∀ d : List UtxoRec,
      getUtxoById kt ki (dictAssign r d) = getUtxoById kt ki d
  | [] => by rw [dictAssign, getUtxoById_cons, if_neg hne, getUtxoById_nil]
  | x :: xs => by
      rw [dictAssign]
      by_cases h : x.txid = r.txid ∧ x.outputIndex = r.outputIndex
      · rw [if_pos h, getUtxoById_cons, getUtxoById_cons, if_neg hne,
          if_neg (fun hc => hne ⟨by rw [← h.1]; exact hc.1,
            by rw [← h.2]; exact hc.2⟩)]
      · rw [if_neg h, getUtxoById_cons, getUtxoById_cons]
        by_cases hx : x.txid = kt ∧ x.outputIndex = ki
        · rw [if_pos hx, if_pos hx]
        · rw [if_neg hx, if_neg hx, getUtxoById_dictAssign_ne kt ki r hne xs]

theorem mem_dictAssign (r y : UtxoRec) :
    ∀ d : List UtxoRec, y ∈ dictAssign r d → y = r ∨ y ∈ d
  | [], h => by
      rw [dictAssign] at h
      rcases List.mem_cons.mp h with h | h
      · exact Or.inl h
      · exact absurd h (List.not_mem_nil y)
  | x :: xs, h => by
      rw [dictAssign] at h
      by_cases hc : x.txid = r.txid ∧ x.outputIndex = r.outputIndex
      · rw [if_pos hc] at h
        rcases List.mem_cons.mp h with h | h
        · exact Or.inl h
        · exact Or.inr (List.mem_cons_of_mem x h)
      · rw [if_neg hc] at h
        rcases List.mem_cons.mp h with h | h
        · exact Or.inr (h ▸ List.mem_cons_self x xs)
        · rcases mem_dictAssign r y xs h with h | h
          · exact Or.inl h
          · exact Or.inr (List.mem_cons_of_mem x h)

theorem getUtxoById_addUtxo_ne (kt : String) (ki : Int) (r : UtxoRec)
    (hne : ¬ (r.txid = kt ∧ r.outputIndex = ki)) (u : List UtxoRec) :
    getUtxoById kt ki (addUtxo r u) = getUtxoById kt ki u := by
  rw [addUtxo]
  split_ifs with h
  · rfl
  · rw [getUtxoById_append]
    cases hg : getUtxoById kt ki u with
    | some x => rfl
    | none =>
        rw [getUtxoById_cons]
        rw [if_neg (fun hc => hne ⟨hc.1, hc.2⟩), getUtxoById_nil]

theorem getUtxoById_addUtxo_fresh (r : UtxoRec) (u : List UtxoRec)
    (hu : getUtxoById r.txid r.outputIndex u = none) :
    getUtxoById r.txid r.outputIndex (addUtxo r u)
      = some { r with spentTxid := none, spentIndex := none } := by
  rw [addUtxo, if_neg (by rw [hu]; simp), getUtxoById_append, hu,
    getUtxoById_cons, if_pos ⟨rfl, rfl⟩]

theorem getUtxoById_dictSpend_ne (kt : String) (ki : Int) (itx : String)
    (iix : Int) (stx : String) (six : Nat) (l : List UtxoRec)
    (h : itx ≠ kt) :
    getUtxoById kt ki (dictSpend itx iix stx six l)
      = getUtxoById kt ki l := by
  rw [getUtxoById_dictSpend]
  cases hg : getUtxoById kt ki l with
  | none => rfl
  | some r =>
      have hk := getUtxoById_some_key kt ki l r hg
      have hc : ¬ (r.txid = itx ∧ r.outputIndex = iix) :=
        fun hc => h (by rw [← hc.1]; exact hk.1)
      simp [hc]

theorem getUtxoById_markSpent_none (kt : String) (ki : Int) (itx : String)
    (iix : Int) (stx : String) (six : Nat) (l : List UtxoRec)
    (h : getUtxoById kt ki l = none) :
    getUtxoById kt ki (markSpent itx iix stx six l) = none := by
  rw [getUtxoById_markSpent, h]
  rfl

/-- One marking step, on both paths at once, preserves the simulation
relation at any key. -/
theorem markStep_rel (kt : String) (ki : Int) (inp : TxInput) (stx : String)
    (i1 i2 : Nat) (d u : List UtxoRec)
    (hrel : SpentnessRel (getUtxoById kt ki d) (getUtxoById kt ki u)) :
    SpentnessRel
      (getUtxoById kt ki (dictSpend inp.txid inp.outputIndex stx i1 d))
      (getUtxoById kt ki (markSpent inp.txid inp.outputIndex stx i2 u)) := by
  rw [getUtxoById_dictSpend, getUtxoById_markSpent]
  cases hd : getUtxoById kt ki d with
  | none =>
      cases hu : getUtxoById kt ki u with
      | none => exact trivial
      | some b => rw [hd, hu] at hrel; exact hrel.elim
  | some a =>
      cases hu : getUtxoById kt ki u with
      | none => rw [hd, hu] at hrel; exact hrel.elim
      | some b =>
          rw [hd, hu] at hrel
          obtain ⟨ha, hm, hsp⟩ := hrel
          have hak := getUtxoById_some_key kt ki d a hd
          have hbk := getUtxoById_some_key kt ki u b hu
          simp only [Option.map_some']
          by_cases hk : a.txid = inp.txid ∧ a.outputIndex = inp.outputIndex
          · have hkb : b.txid = inp.txid ∧ b.outputIndex = inp.outputIndex :=
              ⟨by rw [hbk.1, ← hak.1]; exact hk.1,
               by rw [hbk.2, ← hak.2]; exact hk.2⟩
            rw [if_pos hk]
            by_cases hbs : b.spentTxid = none
            · rw [if_pos ⟨hkb.1, hkb.2, hbs⟩]
              exact ⟨ha, hm, by simp⟩
            · rw [if_neg (fun hc => hbs hc.2.2)]
              exact ⟨ha, hm, ⟨fun h => by simp at h, fun h => absurd h hbs⟩⟩
          · have hkb : ¬ (b.txid = inp.txid ∧ b.outputIndex = inp.outputIndex) :=
              fun hc => hk ⟨by rw [hak.1, ← hbk.1]; exact hc.1,
                by rw [hak.2, ← hbk.2]; exact hc.2⟩
            rw [if_neg hk, if_neg (fun hc => hkb ⟨hc.1, hc.2.1⟩)]
            exact ⟨ha, hm, hsp⟩

/-- The two marking loops of a non-coinbase transaction — the rebuild's fold
over the inputs and the store's fold over the enumerated inputs — preserve
the simulation relation at any key. -/
theorem marksFold_rel (kt : String) (ki : Int) (stx : String)
    (idxF : TxInput → Nat) :
    ∀ (inputs : List TxInput) (n : Nat) (d u : List UtxoRec),
      SpentnessRel (getUtxoById kt ki d) (getUtxoById kt ki u) →
      SpentnessRel
        (getUtxoById kt ki (inputs.foldl
          (fun d inp => dictSpend inp.txid inp.outputIndex stx (idxF inp) d) d))
        (getUtxoById kt ki ((List.enumFrom n inputs).foldl
          (fun u p => markSpent p.2.txid p.2.outputIndex stx p.1 u) u))
  | [], n, d, u, h => h
  | inp :: rest, n, d, u, h => by
      rw [show List.enumFrom n (inp :: rest)
          = (n, inp) :: List.enumFrom (n + 1) rest from rfl,
        List.foldl_cons, List.foldl_cons]
      exact marksFold_rel kt ki stx idxF rest (n + 1) _ _
        (markStep_rel kt ki inp stx (idxF inp) n d u h)

theorem dictSpendFold_ne (kt : String) (ki : Int) (stx : String)
    (idxF : TxInput → Nat) :
    ∀ (inputs : List TxInput) (d : List UtxoRec),
      (∀ inp ∈ inputs, inp.txid ≠ kt) →
      getUtxoById kt ki (inputs.foldl
          (fun d inp => dictSpend inp.txid inp.outputIndex stx (idxF inp) d) d)
        = getUtxoById kt ki d
  | [], d, _ => rfl
  | inp :: rest, d, h => by
      rw [List.foldl_cons,
        dictSpendFold_ne kt ki stx idxF rest _
          (fun i hi => h i (List.mem_cons_of_mem inp hi)),
        getUtxoById_dictSpend_ne kt ki _ _ _ _ d
          (h inp (List.mem_cons_self inp rest))]

theorem markSpentFold_none (kt : String) (ki : Int) (stx : String) :
    ∀ (ps : List (Nat × TxInput)) (u : List UtxoRec),
      getUtxoById kt ki u = none →
      getUtxoById kt ki (ps.foldl
          (fun u p => markSpent p.2.txid p.2.outputIndex stx p.1 u) u)
        = none
  | [], u, h => h
  | p :: ps, u, h => by
      rw [List.foldl_cons]
      exact markSpentFold_none kt ki stx ps _
        (getUtxoById_markSpent_none kt ki _ _ _ _ u h)

theorem dictAssignFold_ne (kt : String) (ki : Int) (txid : String) :
    ∀ (ps : List (Nat × TxOutput)) (d : List UtxoRec),
      (∀ p ∈ ps, ¬ (txid = kt ∧ ((p.1 : Int) = ki))) →
      getUtxoById kt ki (ps.foldl
          (fun d p => dictAssign (mkOutRec txid p) d) d)
        = getUtxoById kt ki d
  | [], d, _ => rfl
  | p :: ps, d, h => by
      rw [List.foldl_cons,
        dictAssignFold_ne kt ki txid ps _
          (fun q hq => h q (List.mem_cons_of_mem p hq)),
        getUtxoById_dictAssign_ne kt ki (mkOutRec txid p)
          (fun hc => h p (List.mem_cons_self p ps) ⟨hc.1, hc.2⟩) d]

theorem addUtxos_ne (kt : String) (ki : Int) :
    ∀ (recs : List UtxoRec) (u : List UtxoRec),
      (∀ r ∈ recs, ¬ (r.txid = kt ∧ r.outputIndex = ki)) →
      getUtxoById kt ki (addUtxos recs u) = getUtxoById kt ki u
  | [], u, _ => rfl
  | r :: recs, u, h => by
      rw [addUtxos, List.foldl_cons]
      rw [show recs.foldl (fun u r => addUtxo r u) (addUtxo r u)
          = addUtxos recs (addUtxo r u) from rfl]
      rw [addUtxos_ne kt ki recs _
          (fun q hq => h q (List.mem_cons_of_mem r hq)),
        getUtxoById_addUtxo_ne kt ki r (h r (List.mem_cons_self r recs)) u]
theorem mkOutRec_strip (txid : String) (p : Nat × TxOutput) :
    { mkOutRec txid p with spentTxid := none, spentIndex := none }
      = mkOutRec txid p := rfl

/-- Replaying the output-insertion loop of the rebuild dictionary over a key
not yet present: the key ends up holding exactly the output enumerated at its
index, when there is one. -/
theorem dictAssignFold_fresh (txid : String) (ki : Int) :
    ∀ (ps : List (Nat × TxOutput)) (d : List UtxoRec),
      getUtxoById txid ki d = none → (ps.map Prod.fst).Nodup →
      getUtxoById txid ki (ps.foldl
          (fun d p => dictAssign (mkOutRec txid p) d) d)
        = (ps.find? (fun p => (p.1 : Int) == ki)).map (mkOutRec txid)
  | [], d, hd, _ => by simpa using hd
  | p :: ps, d, hd, hnd => by
      rw [List.map_cons, List.nodup_cons] at hnd
      rw [List.foldl_cons, List.find?_cons]
      by_cases hpi : (p.1 : Int) = ki
      · rw [show ((p.1 : Int) == ki) = true from beq_iff_eq.mpr hpi]
        have h1 : getUtxoById txid ki (dictAssign (mkOutRec txid p) d)
            = some (mkOutRec txid p) := by
          have h2 := getUtxoById_dictAssign_self (mkOutRec txid p) d
          rw [show (mkOutRec txid p).txid = txid from rfl,
            show (mkOutRec txid p).outputIndex = (p.1 : Int) from rfl,
            hpi] at h2
          exact h2
        rw [dictAssignFold_ne txid ki txid ps _
          (fun q hq hc => by
            have : (q.1 : Int) = (p.1 : Int) := by rw [hc.2, hpi]
            exact hnd.1 (by
              have hq1 : q.1 = p.1 := by exact_mod_cast this
              rw [← hq1]
              exact List.mem_map_of_mem Prod.fst hq))]
        rw [h1]
        rfl
      · rw [show ((p.1 : Int) == ki) = false from beq_eq_false_iff_ne.mpr hpi]
        have h1 : getUtxoById txid ki (dictAssign (mkOutRec txid p) d)
            = getUtxoById txid ki d :=
          getUtxoById_dictAssign_ne txid ki (mkOutRec txid p)
            (fun hc => hpi hc.2) d
        exact dictAssignFold_fresh txid ki ps _ (by rw [h1]; exact hd) hnd.2

/-- The store-side insertion of a transaction's outputs over a key not yet
present agrees with the rebuild side record by record. -/
theorem addUtxosMap_fresh (txid : String) (ki : Int) :
    ∀ (ps : List (Nat × TxOutput)) (u : List UtxoRec),
      getUtxoById txid ki u = none → (ps.map Prod.fst).Nodup →
      getUtxoById txid ki (addUtxos (ps.map (mkOutRec txid)) u)
        = (ps.find? (fun p => (p.1 : Int) == ki)).map (mkOutRec txid)
  | [], u, hu, _ => by simpa using hu
  | p :: ps, u, hu, hnd => by
      rw [List.map_cons, List.nodup_cons] at hnd
      rw [List.map_cons, List.find?_cons]
      rw [show addUtxos (mkOutRec txid p :: ps.map (mkOutRec txid)) u
          = addUtxos (ps.map (mkOutRec txid)) (addUtxo (mkOutRec txid p) u)
          from rfl]
      by_cases hpi : (p.1 : Int) = ki
      · rw [show ((p.1 : Int) == ki) = true from beq_iff_eq.mpr hpi]
        have h1 : getUtxoById txid ki (addUtxo (mkOutRec txid p) u)
            = some (mkOutRec txid p) := by
          rw [← hpi]
          exact getUtxoById_addUtxo_fresh (mkOutRec txid p) u
            (by rw [show (mkOutRec txid p).txid = txid from rfl,
              show (mkOutRec txid p).outputIndex = (p.1 : Int) from rfl, hpi]
                exact hu)
        rw [addUtxos_ne txid ki (ps.map (mkOutRec txid)) _
          (fun r hr hc => by
            obtain ⟨q, hq, rfl⟩ := List.mem_map.mp hr
            have : (q.1 : Int) = (p.1 : Int) := by
              rw [show (mkOutRec txid q).outputIndex = (q.1 : Int) from rfl]
                at hc
              rw [hc.2, hpi]
            have hq1 : q.1 = p.1 := by exact_mod_cast this
            exact hnd.1 (by rw [← hq1]; exact List.mem_map_of_mem Prod.fst hq))]
        rw [h1]
        rfl
      · rw [show ((p.1 : Int) == ki) = false from beq_eq_false_iff_ne.mpr hpi]
        have h1 : getUtxoById txid ki (addUtxo (mkOutRec txid p) u)
            = getUtxoById txid ki u :=
          getUtxoById_addUtxo_ne txid ki (mkOutRec txid p)
            (fun hc => hpi hc.2) u
        exact addUtxosMap_fresh txid ki ps _ (by rw [h1]; exact hu) hnd.2
theorem incrTxStep_true (t : Transaction) (u : List UtxoRec) :
    incrTxStep true t u
      = addUtxos (t.outputs.enum.map (mkOutRec t.txid))
          (if ¬ coinbaseSentinel t then
            t.inputs.enum.foldl
              (fun u p => markSpent p.2.txid p.2.outputIndex t.txid p.1 u) u
          else u) := by
  by_cases hcb : coinbaseSentinel t
  · simp [incrTxStep, hcb]
  · simp [incrTxStep, hcb]

theorem rebuildTxStep_eq (t : Transaction) (d : List UtxoRec) :
    rebuildTxStep t d
      = (if ¬ coinbaseSentinel t then
          t.inputs.foldl (fun d inp => dictSpend inp.txid inp.outputIndex
              t.txid (t.inputs.indexOf inp) d)
            (t.outputs.enum.foldl
              (fun d p => dictAssign (mkOutRec t.txid p) d) d)
        else t.outputs.enum.foldl
          (fun d p => dictAssign (mkOutRec t.txid p) d) d) := by
  by_cases hcb : coinbaseSentinel t
  · simp [rebuildTxStep, hcb]
  · simp [rebuildTxStep, hcb]

/-- Replaying one transaction on both paths preserves the simulation
relation at any key, provided the transaction's id is fresh on both sides
and the transaction does not reference its own id. -/
theorem txStep_rel (kt : String) (ki : Int) (t : Transaction)
    (hself : ∀ inp ∈ t.inputs, inp.txid ≠ t.txid)
    (d u : List UtxoRec)
    (hrel : SpentnessRel (getUtxoById kt ki d) (getUtxoById kt ki u))
    (hfreshd : kt = t.txid → getUtxoById kt ki d = none)
    (hfreshu : kt = t.txid → getUtxoById kt ki u = none) :
    SpentnessRel (getUtxoById kt ki (rebuildTxStep t d))
      (getUtxoById kt ki (incrTxStep true t u)) := by
  rw [rebuildTxStep_eq, incrTxStep_true]
  by_cases hk : kt = t.txid
  · have hd := hfreshd hk
    have hu := hfreshu hk
    rw [hk]
    rw [hk] at hd hu
    have hnodup : (t.outputs.enum.map Prod.fst).Nodup := by
      rw [List.enum_map_fst]; exact List.nodup_range _
    have hadds : getUtxoById t.txid ki
        (t.outputs.enum.foldl (fun d p => dictAssign (mkOutRec t.txid p) d) d)
        = (t.outputs.enum.find? (fun p => (p.1 : Int) == ki)).map
            (mkOutRec t.txid) :=
      dictAssignFold_fresh t.txid ki t.outputs.enum d hd hnodup
    have hrebuild : getUtxoById t.txid ki
        (if ¬ coinbaseSentinel t then
          t.inputs.foldl (fun d inp => dictSpend inp.txid inp.outputIndex
              t.txid (t.inputs.indexOf inp) d)
            (t.outputs.enum.foldl
              (fun d p => dictAssign (mkOutRec t.txid p) d) d)
        else t.outputs.enum.foldl
          (fun d p => dictAssign (mkOutRec t.txid p) d) d)
        = (t.outputs.enum.find? (fun p => (p.1 : Int) == ki)).map
            (mkOutRec t.txid) := by
      by_cases hcb : coinbaseSentinel t
      · rw [if_neg (by simp [hcb])]
        exact hadds
      · rw [if_pos (by simp [hcb])]
        rw [dictSpendFold_ne t.txid ki t.txid (fun inp => t.inputs.indexOf inp)
          t.inputs _ hself]
        exact hadds
    have hmarks : getUtxoById t.txid ki
        (if ¬ coinbaseSentinel t then
          t.inputs.enum.foldl
            (fun u p => markSpent p.2.txid p.2.outputIndex t.txid p.1 u) u
        else u) = none := by
      by_cases hcb : coinbaseSentinel t
      · rw [if_neg (by simp [hcb])]; exact hu
      · rw [if_pos (by simp [hcb])]
        exact markSpentFold_none t.txid ki t.txid t.inputs.enum u hu
    have hincr : getUtxoById t.txid ki
        (addUtxos (t.outputs.enum.map (mkOutRec t.txid))
          (if ¬ coinbaseSentinel t then
            t.inputs.enum.foldl
              (fun u p => markSpent p.2.txid p.2.outputIndex t.txid p.1 u) u
          else u))
        = (t.outputs.enum.find? (fun p => (p.1 : Int) == ki)).map
            (mkOutRec t.txid) :=
      addUtxosMap_fresh t.txid ki t.outputs.enum _ hmarks hnodup
    rw [hrebuild, hincr]
    cases t.outputs.enum.find? (fun p => (p.1 : Int) == ki) with
    | none => exact trivial
    | some p => exact ⟨rfl, rfl, Iff.rfl⟩
  · have hne : t.txid ≠ kt := fun h => hk h.symm
    have hadds : getUtxoById kt ki
        (t.outputs.enum.foldl (fun d p => dictAssign (mkOutRec t.txid p) d) d)
        = getUtxoById kt ki d :=
      dictAssignFold_ne kt ki t.txid t.outputs.enum d
        (fun p hp hc => hne hc.1)
    have haddsu : ∀ u' : List UtxoRec,
        getUtxoById kt ki
          (addUtxos (t.outputs.enum.map (mkOutRec t.txid)) u')
          = getUtxoById kt ki u' := fun u' =>
      addUtxos_ne kt ki (t.outputs.enum.map (mkOutRec t.txid)) u'
        (fun r hr hc => by
          obtain ⟨q, hq, rfl⟩ := List.mem_map.mp hr
          exact hne hc.1)
    rw [haddsu]
    by_cases hcb : coinbaseSentinel t
    · rw [if_neg (by simp [hcb]), if_neg (by simp [hcb]), hadds]
      exact hrel
    · rw [if_pos (by simp [hcb]), if_pos (by simp [hcb])]
      rw [show t.inputs.enum = List.enumFrom 0 t.inputs from rfl]
      refine marksFold_rel kt ki t.txid (fun inp => t.inputs.indexOf inp)
        t.inputs 0 _ u ?_
      rw [hadds]
      exact hrel

/-- A transaction whose id differs from the key's txid cannot make the key
appear on the rebuild side. -/
theorem rebuildTxStep_none (kt : String) (ki : Int) (t : Transaction)
    (hk : kt ≠ t.txid) (d : List UtxoRec)
    (hd : getUtxoById kt ki d = none) :
    getUtxoById kt ki (rebuildTxStep t d) = none := by
  rw [rebuildTxStep_eq]
  have hne : t.txid ≠ kt := fun h => hk h.symm
  have hadds : getUtxoById kt ki
      (t.outputs.enum.foldl (fun d p => dictAssign (mkOutRec t.txid p) d) d)
      = getUtxoById kt ki d :=
    dictAssignFold_ne kt ki t.txid t.outputs.enum d (fun p hp hc => hne hc.1)
  by_cases hcb : coinbaseSentinel t
  · rw [if_neg (by simp [hcb]), hadds]; exact hd
  · rw [if_pos (by simp [hcb])]
    have : ∀ (inputs : List TxInput) (d0 : List UtxoRec),
        getUtxoById kt ki d0 = none →
        getUtxoById kt ki (inputs.foldl
          (fun d inp => dictSpend inp.txid inp.outputIndex t.txid
            (t.inputs.indexOf inp) d) d0) = none := by
      intro inputs
      induction inputs with
      | nil => intro d0 h0; exact h0
      | cons i rest ih =>
          intro d0 h0
          rw [List.foldl_cons]
          refine ih _ ?_
          rw [getUtxoById_dictSpend, h0]
          rfl
    exact this t.inputs _ (by rw [hadds]; exact hd)

/-- A transaction whose id differs from the key's txid cannot make the key
appear on the incremental side. -/
theorem incrTxStep_none (kt : String) (ki : Int) (t : Transaction)
    (hk : kt ≠ t.txid) (u : List UtxoRec)
    (hu : getUtxoById kt ki u = none) :
    getUtxoById kt ki (incrTxStep true t u) = none := by
  rw [incrTxStep_true]
  have hne : t.txid ≠ kt := fun h => hk h.symm
  rw [addUtxos_ne kt ki (t.outputs.enum.map (mkOutRec t.txid)) _
    (fun r hr hc => by
      obtain ⟨q, hq, rfl⟩ := List.mem_map.mp hr
      exact hne hc.1)]
  by_cases hcb : coinbaseSentinel t
  · rw [if_neg (by simp [hcb])]; exact hu
  · rw [if_pos (by simp [hcb])]
    exact markSpentFold_none kt ki t.txid t.inputs.enum u hu
/-- Replaying a list of transactions with pairwise-fresh ids on both paths
preserves the simulation relation at any key, together with the fact that a
key present in either store is owned by an already-replayed transaction. -/
theorem foldTxs_rel (kt : String) (ki : Int) :
    ∀ (txs : List Transaction) (seen : List String) (d u : List UtxoRec),
      (seen ++ txs.map (fun t => t.txid)).Nodup →
      (∀ t ∈ txs, ∀ inp ∈ t.inputs, inp.txid ≠ t.txid) →
      SpentnessRel (getUtxoById kt ki d) (getUtxoById kt ki u) →
      (getUtxoById kt ki d ≠ none → kt ∈ seen) →
      (getUtxoById kt ki u ≠ none → kt ∈ seen) →
      SpentnessRel
        (getUtxoById kt ki (txs.foldl (fun d t => rebuildTxStep t d) d))
        (getUtxoById kt ki (txs.foldl (fun u t => incrTxStep true t u) u))
  | [], seen, d, u, _, _, hrel, _, _ => hrel
  | t :: txs, seen, d, u, hnd, hself, hrel, hdomd, hdomu => by
      rw [List.foldl_cons, List.foldl_cons]
      have htfresh : t.txid ∉ seen := by
        rw [List.map_cons] at hnd
        have hdisj := List.disjoint_of_nodup_append hnd
        exact fun hmem => hdisj hmem (List.mem_cons_self _ _)
      have hfreshd : kt = t.txid → getUtxoById kt ki d = none := by
        intro hk
        by_contra hne
        exact htfresh (hk ▸ hdomd hne)
      have hfreshu : kt = t.txid → getUtxoById kt ki u = none := by
        intro hk
        by_contra hne
        exact htfresh (hk ▸ hdomu hne)
      have hstep := txStep_rel kt ki t
        (hself t (List.mem_cons_self t txs)) d u hrel hfreshd hfreshu
      refine foldTxs_rel kt ki txs (seen ++ [t.txid]) _ _ ?_ ?_ hstep ?_ ?_
      · have : (seen ++ [t.txid]) ++ txs.map (fun t => t.txid)
            = seen ++ (t :: txs).map (fun t => t.txid) := by
          rw [List.map_cons, List.append_assoc]
          rfl
        rw [this]
        exact hnd
      · exact fun t2 h2 => hself t2 (List.mem_cons_of_mem t h2)
      · intro hne
        by_cases hk : kt = t.txid
        · exact List.mem_append.mpr (Or.inr (by rw [hk]; exact List.mem_cons_self _ _))
        · have := rebuildTxStep_none kt ki t hk d
          have hdne : getUtxoById kt ki d ≠ none := by
            intro h0
            exact hne (this h0)
          exact List.mem_append.mpr (Or.inl (hdomd hdne))
      · intro hne
        by_cases hk : kt = t.txid
        · exact List.mem_append.mpr (Or.inr (by rw [hk]; exact List.mem_cons_self _ _))
        · have := incrTxStep_none kt ki t hk u
          have hune : getUtxoById kt ki u ≠ none := by
            intro h0
            exact hne (this h0)
          exact List.mem_append.mpr (Or.inl (hdomu hune))

/-- Folding transaction-wise over the blocks is folding over the flattened
transaction list. -/
theorem foldl_chainTxs {A : Type} (f : A → Transaction → A) :
    ∀ (chain : List Block) (s : A),
      chain.foldl (fun a b => b.transactions.foldl f a) s
        = (chainTxs chain).foldl f s
  | [], s => rfl
  | b :: rest, s => by
      rw [List.foldl_cons,
        show chainTxs (b :: rest) = b.transactions ++ chainTxs rest from by
          rw [chainTxs, List.flatMap_cons]; rfl,
        List.foldl_append]
      exact foldl_chainTxs f rest _

theorem rebuildDict_eq_foldTxs (chain : List Block) :
    rebuildDict chain
      = (chainTxs chain).foldl (fun d t => rebuildTxStep t d) [] := by
  rw [rebuildDict]
  exact foldl_chainTxs (fun d t => rebuildTxStep t d) chain []

theorem applyChain_eq_foldTxs (chain : List Block) :
    applyChainIncrementally chain
      = (chainTxs chain).foldl (fun u t => incrTxStep true t u) [] := by
  rw [applyChainIncrementally]
  rw [show (fun (u : UtxoStore) (b : Block) => updateUtxoSet b true u)
      = (fun u b => b.transactions.foldl (fun u t => incrTxStep true t u) u)
      from rfl]
  exact foldl_chainTxs (fun u t => incrTxStep true t u) chain []
/-! ### Key uniqueness of the rebuild dictionary, and the final filter -/

theorem keysUnique_dictAssign (r : UtxoRec) :
    ∀ d : List UtxoRec, KeysUnique d → KeysUnique (dictAssign r d)
  | [], _ => List.pairwise_singleton _ r
  | x :: xs, h => by
      rw [dictAssign]
      rw [KeysUnique, List.pairwise_cons] at h
      by_cases hc : x.txid = r.txid ∧ x.outputIndex = r.outputIndex
      · rw [if_pos hc]
        rw [KeysUnique, List.pairwise_cons]
        refine ⟨fun y hy => ?_, h.2⟩
        have := h.1 y hy
        rw [hc.1, hc.2] at this
        exact this
      · rw [if_neg hc]
        rw [KeysUnique, List.pairwise_cons]
        refine ⟨fun y hy => ?_, keysUnique_dictAssign r xs h.2⟩
        rcases mem_dictAssign r y xs hy with rfl | hy2
        · intro hp
          exact hc ⟨congrArg Prod.fst hp, congrArg Prod.snd hp⟩
        · exact h.1 y hy2

theorem keysUnique_dictSpend (itx : String) (iix : Int) (stx : String)
    (six : Nat) (d : List UtxoRec) (h : KeysUnique d) :
    KeysUnique (dictSpend itx iix stx six d) := by
  rw [dictSpend, KeysUnique, List.pairwise_map]
  refine h.imp (fun {a b} hab hp => hab ?_)
  have key : ∀ r : UtxoRec,
      ((if r.txid = itx ∧ r.outputIndex = iix
        then { r with spentTxid := some stx, spentIndex := some six }
        else r) : UtxoRec).txid = r.txid ∧
      ((if r.txid = itx ∧ r.outputIndex = iix
        then { r with spentTxid := some stx, spentIndex := some six }
        else r) : UtxoRec).outputIndex = r.outputIndex := by
    intro r
    by_cases hc : r.txid = itx ∧ r.outputIndex = iix
    · rw [if_pos hc]; exact ⟨rfl, rfl⟩
    · rw [if_neg hc]; exact ⟨rfl, rfl⟩
  rw [Prod.ext_iff] at hp ⊢
  obtain ⟨hp1, hp2⟩ := hp
  rw [(key a).1, (key b).1] at hp1
  rw [(key a).2, (key b).2] at hp2
  exact ⟨hp1, hp2⟩

theorem keysUnique_rebuildTxStep (t : Transaction) (d : List UtxoRec)
    (h : KeysUnique d) : KeysUnique (rebuildTxStep t d) := by
  rw [rebuildTxStep_eq]
  have hadds : ∀ (ps : List (Nat × TxOutput)) (d0 : List UtxoRec),
      KeysUnique d0 →
      KeysUnique (ps.foldl (fun d p => dictAssign (mkOutRec t.txid p) d) d0) := by
    intro ps
    induction ps with
    | nil => intro d0 h0; exact h0
    | cons p ps ih =>
        intro d0 h0
        rw [List.foldl_cons]
        exact ih _ (keysUnique_dictAssign _ _ h0)
  have hmarks : ∀ (inputs : List TxInput) (d0 : List UtxoRec),
      KeysUnique d0 →
      KeysUnique (inputs.foldl (fun d inp => dictSpend inp.txid
        inp.outputIndex t.txid (t.inputs.indexOf inp) d) d0) := by
    intro inputs
    induction inputs with
    | nil => intro d0 h0; exact h0
    | cons i rest ih =>
        intro d0 h0
        rw [List.foldl_cons]
        exact ih _ (keysUnique_dictSpend _ _ _ _ _ h0)
  by_cases hcb : coinbaseSentinel t
  · rw [if_neg (by simp [hcb])]
    exact hadds t.outputs.enum d h
  · rw [if_pos (by simp [hcb])]
    exact hmarks t.inputs _ (hadds t.outputs.enum d h)

theorem keysUnique_rebuildDict (chain : List Block) :
    KeysUnique (rebuildDict chain) := by
  rw [rebuildDict_eq_foldTxs]
  have : ∀ (txs : List Transaction) (d : List UtxoRec), KeysUnique d →
      KeysUnique (txs.foldl (fun d t => rebuildTxStep t d) d) := by
    intro txs
    induction txs with
    | nil => intro d h; exact h
    | cons t rest ih =>
        intro d h
        rw [List.foldl_cons]
        exact ih _ (keysUnique_rebuildTxStep t d h)
  exact this (chainTxs chain) [] (List.Pairwise.nil)

/-- Looking a key up in the unspent-filtered store, when keys are unique, is
looking it up and discarding a spent record. -/
theorem getUtxoById_filter_unspent (kt : String) (ki : Int) :
    ∀ l : List UtxoRec, KeysUnique l →
      getUtxoById kt ki (l.filter (fun r => ¬ r.isSpent))
        = (getUtxoById kt ki l).bind
            (fun r => if r.isSpent then none else some r)
  | [], _ => rfl
  | x :: xs, h => by
      rw [KeysUnique, List.pairwise_cons] at h
      rw [getUtxoById_cons]
      by_cases hx : x.txid = kt ∧ x.outputIndex = ki
      · rw [if_pos hx]
        by_cases hs : x.isSpent
        · rw [List.filter_cons_of_neg (by simp [hs])]
          have hnone : getUtxoById kt ki
              (xs.filter (fun r => ¬ r.isSpent)) = none := by
            refine getUtxoById_none_of_no_match kt ki _ (fun y hy hc => ?_)
            have hy2 := List.mem_of_mem_filter hy
            have := h.1 y hy2
            exact this (by rw [Prod.ext_iff]
                           exact ⟨by rw [hx.1, hc.1],
                             by rw [hx.2, hc.2]⟩)
          rw [hnone]
          simp [hs]
        · rw [List.filter_cons_of_pos (by simp [hs]), getUtxoById_cons,
            if_pos hx]
          simp [hs]
      · rw [if_neg hx]
        by_cases hs : x.isSpent
        · rw [List.filter_cons_of_neg (by simp [hs])]
          exact getUtxoById_filter_unspent kt ki xs h.2
        · rw [List.filter_cons_of_pos (by simp [hs]), getUtxoById_cons,
            if_neg hx]
          exact getUtxoById_filter_unspent kt ki xs h.2
/-- Claim C3 amended: for a chain in which no transaction id occurs twice
and no transaction spends its own id, rebuilding the UTXO store from scratch
(`rebuild_utxo_set`) and maintaining it incrementally
(`_update_utxo_set` per committed block, in order) expose the same unspent
records — the same keys with the same addresses and amounts. -/
theorem rebuild_matches_incremental (chain : List Block)
    (hnodup : ((chainTxs chain).map (fun t => t.txid)).Nodup)
    (hself : ∀ t ∈ chainTxs chain, ∀ inp ∈ t.inputs, inp.txid ≠ t.txid) :
    ∀ k : String × Int,
      unspentViewAt k (rebuildUtxoSet chain)
        = unspentViewAt k (applyChainIncrementally chain) := by
  intro k
  have hrel := foldTxs_rel k.1 k.2 (chainTxs chain) [] [] []
    (by simpa using hnodup) hself trivial
    (by intro h; exact absurd rfl h) (by intro h; exact absurd rfl h)
  rw [← rebuildDict_eq_foldTxs, ← applyChain_eq_foldTxs] at hrel
  rw [unspentViewAt, unspentViewAt, rebuildUtxoSet,
    getUtxoById_filter_unspent k.1 k.2 (rebuildDict chain)
      (keysUnique_rebuildDict chain)]
  cases hr : getUtxoById k.1 k.2 (rebuildDict chain) with
  | none =>
      cases hi : getUtxoById k.1 k.2 (applyChainIncrementally chain) with
      | none => rfl
      | some b => rw [hr, hi] at hrel; exact hrel.elim
  | some a =>
      cases hi : getUtxoById k.1 k.2 (applyChainIncrementally chain) with
      | none => rw [hr, hi] at hrel; exact hrel.elim
      | some b =>
          rw [hr, hi] at hrel
          obtain ⟨ha, hm, hsp⟩ := hrel
          by_cases has : a.spentTxid = none
          · have hbs : b.spentTxid = none := hsp.mp has
            simp [UtxoRec.isSpent, has, hbs, ha, hm]
          · have hbs : ¬ b.spentTxid = none := fun h => has (hsp.mpr h)
            simp [UtxoRec.isSpent, has, hbs, Option.isSome_iff_ne_none]
/-- Claim C3 counterexample: on a chain that commits the same transaction
`A` twice with a spend of its output in between, the rebuild path resets the
output to unspent (the dictionary assignment overwrites the spent marker)
while the incremental path keeps it spent (`INSERT OR IGNORE` keeps the
marked row), so the two unspent sets differ at key `(A, 0)`. -/
theorem rebuild_vs_incremental_differ :
    unspentViewAt ("A", 0) (rebuildUtxoSet chainC3dup) = some ("P", 5) ∧
    unspentViewAt ("A", 0) (applyChainIncrementally chainC3dup) = none := by
  with_unfolding_all decide

/-- Witness for the amended C3 on a duplicate-free two-block chain. -/
theorem rebuild_matches_incremental_witness :
    ((chainTxs chainC3w).map (fun t => t.txid)).Nodup ∧
    (∀ t ∈ chainTxs chainC3w, ∀ inp ∈ t.inputs, inp.txid ≠ t.txid) ∧
    unspentViewAt ("A", 0) (rebuildUtxoSet chainC3w)
      = unspentViewAt ("A", 0) (applyChainIncrementally chainC3w) :=
  ⟨by decide, by decide,
    rebuild_matches_incremental chainC3w (by decide) (by decide) ("A", 0)⟩
end QRL
